import Mathlib

/-!
# Verification of the Matchmaking WebSocket server

Shallow embedding of the repository's matchmaking core (server.js and its
variants `part_000`, `part_001`, `part_002` under src/unnamed/).

The source is a Node.js WebSocket server keeping
  * a module-level `queue` array of player objects awaiting a match,
  * per-connection closure state `player` (null until a successful
    `join_queue`, never reset afterwards),
  * mutable mutual `opponent` references between paired players,
  * a heartbeat sweep (`isAlive` flag, `ping`/`pong`, `terminate`).

Embedding choices (documented per definition below):
  * JavaScript numbers used as MMR ratings are modelled by `JNum`
    (finite integer, ±Infinity, NaN); the claims only exercise integer
    ratings, but the join-validation (`isFinite`) and the comparator
    semantics need the non-finite cases.
  * Player objects are identified by the id of the connection owning them
    (each connection creates at most one player object, ever).  The mutable
    `opponent` field lives in the connection store; the queue stores the
    immutable fields (`player_id`, `mmr`, `joinedAt`) next to the owning
    connection id, mirroring the array of player objects.
  * `safeSend` appends to an `outbox` log when the destination socket is
    OPEN and is a no-op otherwise, mirroring the readyState guard.
  * A JavaScript property access on `null` (from `JSON.parse("null")`)
    throws; handlers therefore return `Except Unit ServerState`, `.error ()`
    standing for an uncaught exception escaping the event-loop callback.
-/

namespace MM

/-- A JavaScript number as used for `mmr`: NaN, ±Infinity, or a finite
value (the claims only use integer ratings, so finite values are `Int`). -/
inductive JNum where
  | nan : JNum
  | inf : JNum
  | ninf : JNum
  | fin : Int → JNum
deriving Repr, DecidableEq

/-- Model of `isFinite(x)` from server.js line 109 / part_000 line 111 / part_001
line 216. -/
def jIsFinite : JNum → Bool
  | .fin _ => true
  | _ => false

/-- JavaScript subtraction on numbers, as used by `mmrDiff`. -/
def jSub : JNum → JNum → JNum
  | .nan, _ => .nan
  | _, .nan => .nan
  | .inf, .inf => .nan
  | .inf, _ => .inf
  | .ninf, .ninf => .nan
  | .ninf, _ => .ninf
  | .fin _, .inf => .ninf
  | .fin _, .ninf => .inf
  | .fin a, .fin b => .fin (a - b)

/-- Model of `Math.abs` on a JavaScript number. -/
def jAbs : JNum → JNum
  | .nan => .nan
  | .inf => .inf
  | .ninf => .inf
  | .fin a => .fin |a|

/-- Comparison `x <= k` for a JavaScript number `x` and an integer `k`
(`NaN <= k` and `Infinity <= k` are false, `-Infinity <= k` is true). -/
def jLeInt : JNum → Int → Bool
  | .nan, _ => false
  | .inf, _ => false
  | .ninf, _ => true
  | .fin a, k => a ≤ k

/-- Strict `a < b` on JavaScript numbers, the order in which the sort
comparator `(a, b) => a.mmr - b.mmr` moves `a` before `b`.  Comparisons
involving NaN are false (V8 then leaves the relative order alone, which the
stable insertion sort below reproduces by treating NaN as incomparable). -/
def jLtB : JNum → JNum → Bool
  | .nan, _ => false
  | _, .nan => false
  | .ninf, .ninf => false
  | .ninf, _ => true
  | _, .ninf => false
  | .inf, _ => false
  | .fin _, .inf => true
  | .fin a, .fin b => a < b

/-- The integer value of a finite `JNum` (0 for the non-finite cases; only
applied under a finiteness hypothesis). -/
def finVal : JNum → Int
  | .fin a => a
  | _ => 0

/-- Connections are identified by an opaque id. -/
abbrev ConnId := Nat

/-- The mutable player object created by a successful `join_queue`
(server.js lines 114-120).  `ws` is implicit (the player is stored on its
owning connection); `opponent` holds the owning connection id of the
paired player, `none` for JavaScript `null`. -/
structure PlayerData where
  player_id : String
  mmr : JNum
  joinedAt : Nat
  opponent : Option ConnId
deriving Repr, DecidableEq

/-- One entry of the module-level `queue` array: the immutable fields of
the queued player object plus the id `ws` of the connection owning it. -/
structure QEntry where
  ws : ConnId
  player_id : String
  mmr : JNum
  joinedAt : Nat
deriving Repr, DecidableEq

/-- Per-connection state: `isOpen` models `readyState === OPEN`,
`isAlive` the heartbeat flag, `closeHandled` whether the `"close"` event
has fired (it fires once), `player` the per-connection closure variable. -/
structure Conn where
  isOpen : Bool
  isAlive : Bool
  closeHandled : Bool
  player : Option PlayerData
deriving Repr, DecidableEq

/-- Messages the server sends (`safeSend` payloads).  Only the fields the
claims mention are modelled; opaque relayed payloads are carried as
`Option String`. -/
inductive OutMsg where
  | errorMsg : String → OutMsg
  | matchStart : String → String → OutMsg   -- role ("host"/"client"), opponent id
  | chatMsg : String → String → OutMsg      -- from, text
  | gameUpdateMsg : String → Option String → OutMsg  -- from, payload
  | opponentDisconnected : OutMsg
  | signalFwd : String → Option String → OutMsg      -- kind, forwarded payload
  | pongCS : Option Int → OutMsg
  | pongHS : Option Int → OutMsg
  | latencyReply : Option Int → OutMsg
  | relayLatencyToHost : String → Option Int → OutMsg
  | relayLatencyToClient : Option Int → OutMsg
deriving Repr, DecidableEq

/-- Parsed inbound frames.  `badJson` is a frame `JSON.parse` rejects;
`jsonNull` the frame `"null"` (parses to `null`; any property access on it
throws); `nonObject` a frame parsing to a non-null primitive.  For object
frames, an `Option` field is `some` exactly when the property exists with
the expected `typeof`; `other k` is an object whose `type` is the
unrecognized string `k`, `noType` an object without a string `type`. -/
inductive InMsg where
  | badJson : InMsg
  | jsonNull : InMsg
  | nonObject : InMsg
  | noType : InMsg
  | join : Option String → Option JNum → InMsg
  | signal : String → Option String → InMsg   -- "offer" | "answer" | "ice"
  | chat : Option String → InMsg
  | gameUpdate : Option String → InMsg
  | pingCS : Option Int → InMsg
  | pingHS : Option Int → InMsg
  | latencyReq : Option Int → InMsg
  | latencyToHost : Option Int → InMsg
  | latencyToClient : Option Int → InMsg
  | other : String → InMsg
deriving Repr, DecidableEq

/-- Whole-server state: the connection store (association list keyed by
connection id), the waiting `queue`, and the log of messages actually
handed to open sockets by `safeSend`. -/
structure ServerState where
  conns : List (ConnId × Conn)
  queue : List QEntry
  outbox : List (ConnId × OutMsg)
deriving Repr, DecidableEq

/-- Look a connection up by id (first match). -/
def getConn : List (ConnId × Conn) → ConnId → Option Conn
  | [], _ => none
  | (k, v) :: rest, c => if k = c then some v else getConn rest c

/-- Update the connection with id `c` in place. -/
def modConn (c : ConnId) (f : Conn → Conn) : List (ConnId × Conn) → List (ConnId × Conn)
  | [] => []
  | (k, v) :: rest => (k, if k = c then f v else v) :: modConn c f rest

/-- The `player` closure variable of connection `c` (`none` for `null`). -/
def playerOf (s : ServerState) (c : ConnId) : Option PlayerData :=
  (getConn s.conns c).bind (·.player)

/-- Whether `ws.readyState === WebSocket.OPEN` for the connection with id `c`
(false when the handle is unknown, mirroring the `!ws` guard). -/
def connIsOpen (s : ServerState) (c : ConnId) : Bool :=
  ((getConn s.conns c).map (·.isOpen)).getD false

/-- Model of `safeSend(ws, obj)` (server.js lines 38-47): checks the ready state
and otherwise drops the message silently.  Successful sends are logged in
the outbox. -/
def safeSend (s : ServerState) (c : ConnId) (m : OutMsg) : ServerState :=
  if connIsOpen s c then { s with outbox := s.outbox ++ [(c, m)] } else s

/-- Overwrite the `opponent` field of the player owned by connection `c`. -/
def setOpp (s : ServerState) (c : ConnId) (o : Option ConnId) : ServerState :=
  let f : Conn → Conn :=
    fun conn => { conn with player := conn.player.map (fun p => { p with opponent := o }) }
  { s with conns := modConn c f s.conns }

/-- Effect of a successful `join_queue`: create the player object on its
connection and push it onto the queue (server.js lines 114-122). -/
def pushPlayer (s : ServerState) (c : ConnId) (pid : String) (m : JNum) (now : Nat) :
    ServerState :=
  { s with
    conns := modConn c (fun conn => { conn with player := some ⟨pid, m, now, none⟩ }) s.conns,
    queue := s.queue ++ [⟨c, pid, m, now⟩] }

/-- Model of `Math.floor((now - (joinedAt || now)) / 1000)`, the whole elapsed
seconds used for tolerance widening.  `fb` selects the `|| now` fallback
for a falsy (zero) `joinedAt` present in server.js / part_000 / part_001
but not in part_002; `Int.fdiv` is JavaScript's `Math.floor` division. -/
def waitSecs (fb : Bool) (now : Nat) (joinedAt : Nat) : Int :=
  if fb ∧ joinedAt = 0 then 0
  else Int.fdiv ((now : Int) - (joinedAt : Int)) 1000

/-- Model of `allowed = MAX_MMR_DIFF + Math.min(600, (wait1 + wait2) * 10)`
(server.js lines 61-64). -/
def allowedFor (fb : Bool) (now : Nat) (p1 p2 : QEntry) : Int :=
  200 + min 600 ((waitSecs fb now p1.joinedAt + waitSecs fb now p2.joinedAt) * 10)

/-- The match test `mmrDiff(p1, p2) <= allowed` of server.js line 66. -/
def qualifies (fb : Bool) (now : Nat) (p1 p2 : QEntry) : Bool :=
  jLeInt (jAbs (jSub p1.mmr p2.mmr)) (allowedFor fb now p1 p2)

/-- Insert into a list sorted by the comparator order `jLtB` on `mmr`,
keeping earlier elements first among ties (stability of `Array#sort`). -/
def insertByMmr (p : QEntry) : List QEntry → List QEntry
  | [] => [p]
  | q :: rest => if jLtB q.mmr p.mmr then q :: insertByMmr p rest else p :: q :: rest

/-- Model of `queue.sort((a, b) => a.mmr - b.mmr)` as a stable insertion sort. -/
def sortByMmr : List QEntry → List QEntry
  | [] => []
  | p :: rest => insertByMmr p (sortByMmr rest)

/-- The left-to-right scan over adjacent pairs of the sorted queue
(server.js lines 56-80): returns the first qualifying adjacent pair and
the queue with that pair spliced out, or `none`. -/
def matchScan (fb : Bool) (now : Nat) : List QEntry → Option (QEntry × QEntry × List QEntry)
  | p1 :: p2 :: rest =>
    if qualifies fb now p1 p2 then some (p1, p2, rest)
    else
      match matchScan fb now (p2 :: rest) with
      | some (a, b, rest2) => some (a, b, p1 :: rest2)
      | none => none
  | _ => none

/-- Model of `attemptMatch()` (server.js lines 50-81): no-op on a queue of fewer
than two players; otherwise sort by mmr, scan adjacent pairs, and on the
first qualifying pair splice both out, set mutual opponent references and
send the two `match_start` messages (earlier member "host", later
"client").  part_000/part_001/part_002 read `Date.now()` once before the
loop; server.js calls it per pair inside one synchronous loop - modelled
uniformly as the single `now` of the triggering event.  part_001
additionally packs ENet/UDP hole-punching fields into `match_start`;
those extra fields are outside every claim and are not modelled. -/
def attemptMatch (fb : Bool) (now : Nat) (s : ServerState) : ServerState :=
  if s.queue.length < 2 then s
  else
    let sq := sortByMmr s.queue
    match matchScan fb now sq with
    | none => { s with queue := sq }
    | some (a, b, rest) =>
      let s1 := { s with queue := rest }
      let s2 := setOpp s1 a.ws (some b.ws)
      let s3 := setOpp s2 b.ws (some a.ws)
      let s4 := safeSend s3 a.ws (.matchStart "host" b.player_id)
      safeSend s4 b.ws (.matchStart "client" a.player_id)

/-! ## Message handlers

One handler per source variant.  Each returns `.error ()` exactly where
the JavaScript callback would raise an uncaught exception (property access
on `null`), and `.ok` with the successor state otherwise. -/

/-- The `join_queue` branch, shared verbatim by all variants up to the
`!isFinite(msg.mmr)` conjunct (present in server.js line 109, part_000
line 111, part_001 line 216; absent in part_002 lines 119-120): reject a
duplicate join (`player` already set), validate the payload, then create
the player, push it and run `attemptMatch()` synchronously. -/
def handleJoin (checkFinite fb : Bool) (s : ServerState) (c : ConnId)
    (pid : Option String) (mmr : Option JNum) (now : Nat) : ServerState :=
  if (playerOf s c).isSome then safeSend s c (.errorMsg "already joined")
  else
    match pid, mmr with
    | some pidStr, some mv =>
      if checkFinite ∧ jIsFinite mv = false then
        safeSend s c (.errorMsg "invalid join_queue payload")
      else attemptMatch fb now (pushPlayer s c pidStr mv now)
    | _, _ => safeSend s c (.errorMsg "invalid join_queue payload")

/-- The `ws.on("message", ...)` callback of server.js (lines 92-145).
Recognizes `join_queue` and the signaling kinds `offer`/`answer`/`ice`;
every other parsed frame falls through the `if` chain and is silently
ignored.  Bad JSON is caught and logged (line 96-99); the frame `"null"`
parses and then `msg.type` (line 102) throws.  part_000's handler has the
same guards and differs only in which allow-listed payload fields it
copies into the forwarded signaling message, which no claim touches. -/
def handleMessageServerJs (s : ServerState) (c : ConnId) (m : InMsg) (now : Nat) :
    Except Unit ServerState :=
  match m with
  | .badJson => .ok s
  | .jsonNull => .error ()
  | .nonObject => .ok s
  | .noType => .ok s
  | .join pid mmr => .ok (handleJoin true true s c pid mmr now)
  | .signal kind sdp =>
    match playerOf s c with
    | some p =>
      match p.opponent with
      | some oc =>
        if connIsOpen s oc then .ok (safeSend s oc (.signalFwd kind sdp))
        else .ok (safeSend s c (.errorMsg "no opponent to forward to"))
      | none => .ok (safeSend s c (.errorMsg "no opponent to forward to"))
    | none => .ok (safeSend s c (.errorMsg "no opponent to forward to"))
  | .chat _ => .ok s
  | .gameUpdate _ => .ok s
  | .pingCS _ => .ok s
  | .pingHS _ => .ok s
  | .latencyReq _ => .ok s
  | .latencyToHost _ => .ok s
  | .latencyToClient _ => .ok s
  | .other _ => .ok s

/-- The message callback of part_001 (lines 194-258).  Checks
`!msg || typeof msg.type !== "string"` first (so a `null` payload is
answered, not thrown on), recognizes only `join_queue` and `chat`, and
answers everything else with `unknown message type`.  Its chat relay
checks the opponent's ready state before forwarding. -/
def handleMessagePart001 (s : ServerState) (c : ConnId) (m : InMsg) (now : Nat) :
    Except Unit ServerState :=
  match m with
  | .badJson => .ok s
  | .jsonNull => .ok (safeSend s c (.errorMsg "invalid message format"))
  | .nonObject => .ok (safeSend s c (.errorMsg "invalid message format"))
  | .noType => .ok (safeSend s c (.errorMsg "invalid message format"))
  | .join pid mmr => .ok (handleJoin true true s c pid mmr now)
  | .chat text =>
    match text with
    | none => .ok (safeSend s c (.errorMsg "invalid chat text"))
    | some t =>
      match playerOf s c with
      | some p =>
        match p.opponent with
        | some oc =>
          if connIsOpen s oc then .ok (safeSend s oc (.chatMsg p.player_id t))
          else .ok (safeSend s c (.errorMsg "no opponent to forward chat to"))
        | none => .ok (safeSend s c (.errorMsg "no opponent to forward chat to"))
      | none => .ok (safeSend s c (.errorMsg "no opponent to forward chat to"))
  | _ => .ok (safeSend s c (.errorMsg "unknown message type"))

/-- The message callback of part_002 (lines 102-228).  Answers bad JSON
with an error, throws on a `null` payload (`!msg.type` at line 109),
silently returns on a falsy `type`, echoes the ping/latency probes,
relays latency/chat/game_update to the opponent checking only
`!player || !player.opponent` (not the opponent's ready state), and
answers unknown kinds with `Unknown message type`.  Its `join_queue`
validation omits the `isFinite` check. -/
def handleMessagePart002 (s : ServerState) (c : ConnId) (m : InMsg) (now : Nat) :
    Except Unit ServerState :=
  match m with
  | .badJson => .ok (safeSend s c (.errorMsg "Invalid JSON"))
  | .jsonNull => .error ()
  | .nonObject => .ok s
  | .noType => .ok s
  | .join pid mmr => .ok (handleJoin false false s c pid mmr now)
  | .pingCS ts => .ok (safeSend s c (.pongCS ts))
  | .pingHS ts => .ok (safeSend s c (.pongHS ts))
  | .latencyReq ts => .ok (safeSend s c (.latencyReply ts))
  | .latencyToHost ts =>
    match playerOf s c with
    | some p =>
      match p.opponent with
      | some oc => .ok (safeSend s oc (.relayLatencyToHost p.player_id ts))
      | none => .ok (safeSend s c (.errorMsg "No host/client available"))
    | none => .ok (safeSend s c (.errorMsg "No host/client available"))
  | .latencyToClient ts =>
    match playerOf s c with
    | some p =>
      match p.opponent with
      | some oc => .ok (safeSend s oc (.relayLatencyToClient ts))
      | none => .ok (safeSend s c (.errorMsg "No opponent to relay to"))
    | none => .ok (safeSend s c (.errorMsg "No opponent to relay to"))
  | .chat text =>
    match playerOf s c with
    | some p =>
      match p.opponent with
      | some oc =>
        if text = none ∨ text = some "" then .ok (safeSend s c (.errorMsg "Invalid chat text"))
        else .ok (safeSend s oc (.chatMsg p.player_id (text.getD "")))
      | none => .ok (safeSend s c (.errorMsg "No opponent to forward chat"))
    | none => .ok (safeSend s c (.errorMsg "No opponent to forward chat"))
  | .gameUpdate payload =>
    match playerOf s c with
    | some p =>
      match p.opponent with
      | some oc => .ok (safeSend s oc (.gameUpdateMsg p.player_id payload))
      | none => .ok (safeSend s c (.errorMsg "no opponent to forward update to"))
    | none => .ok (safeSend s c (.errorMsg "no opponent to forward update to"))
  | .signal _ _ => .ok (safeSend s c (.errorMsg "Unknown message type"))
  | .other k =>
    if k = "" then .ok s else .ok (safeSend s c (.errorMsg "Unknown message type"))

/-! ## Close handlers and the heartbeat sweep -/

/-- Mark a connection's socket closed and its `"close"` event consumed
(the event fires once, with `readyState` already not OPEN). -/
def markClosed (s : ServerState) (c : ConnId) : ServerState :=
  { s with conns := modConn c (fun conn => { conn with isOpen := false, closeHandled := true }) s.conns }

/-- The socket leaves the OPEN state (terminate, or transport close in
flight) before the `"close"` event is dispatched. -/
def markDown (s : ServerState) (c : ConnId) : ServerState :=
  { s with conns := modConn c (fun conn => { conn with isOpen := false }) s.conns }

/-- Model of `ws.on("pong", ...)`: mark the connection alive. -/
def markAlive (s : ServerState) (c : ConnId) : ServerState :=
  { s with conns := modConn c (fun conn => { conn with isAlive := true }) s.conns }

/-- The opponent-notification statement of the server.js-family close
callback (lines 153-157): only if this connection has a player with an
opponent whose socket is still OPEN, notify the opponent and clear the
opponent's back-reference. -/
def closeNotifyS (s1 : ServerState) (c : ConnId) : ServerState :=
  match playerOf s1 c with
  | some p =>
    match p.opponent with
    | some oc =>
      if connIsOpen s1 oc then setOpp (safeSend s1 oc .opponentDisconnected) oc none
      else s1
    | none => s1
  | none => s1

/-- The opponent-notification statement of the part_002 close callback
(lines 236-242): it checks only `player && player.opponent` (not the
opponent's ready state), so the back-reference is cleared - and the
notification attempted through `safeSend` - regardless. -/
def closeNotifyP2 (s1 : ServerState) (c : ConnId) : ServerState :=
  match playerOf s1 c with
  | some p =>
    match p.opponent with
    | some oc => setOpp (safeSend s1 oc .opponentDisconnected) oc none
    | none => s1
  | none => s1

/-- The `ws.on("close", ...)` callback of server.js (lines 147-158),
shared by part_000 and part_001: filter this connection out of the queue,
then run the conditional opponent notification. -/
def closeServerJs (s : ServerState) (c : ConnId) : ServerState :=
  closeNotifyS { s with queue := s.queue.filter (fun e => e.ws != c) } c

/-- The close callback of part_002 (lines 230-243): same queue filter,
then the unconditional opponent notification. -/
def closePart002 (s : ServerState) (c : ConnId) : ServerState :=
  closeNotifyP2 { s with queue := s.queue.filter (fun e => e.ws != c) } c

/-- The four source files. -/
inductive Variant where
  | serverJs
  | part000
  | part001
  | part002
deriving Repr, DecidableEq

/-- Message handler of a variant (part_000's handler coincides with
server.js's at this abstraction, see `handleMessageServerJs`). -/
def handleMessage : Variant → ServerState → ConnId → InMsg → Nat → Except Unit ServerState
  | .serverJs => handleMessageServerJs
  | .part000 => handleMessageServerJs
  | .part001 => handleMessagePart001
  | .part002 => handleMessagePart002

/-- Close-event processing of a variant: the socket is closed, the
`"close"` callback runs. -/
def closeEvent (v : Variant) (s : ServerState) (c : ConnId) : ServerState :=
  match v with
  | .part002 => closePart002 (markClosed s c) c
  | _ => closeServerJs (markClosed s c) c

/-- One heartbeat sweep over a connection (server.js lines 162-171): a
connection whose `"close"` already fired has left `wss.clients`; an
unanswered one (`isAlive === false`) is terminated; otherwise the flag is
cleared and a ping sent (control frames are not part of the outbox). -/
def tickConn (conn : Conn) : Conn :=
  if conn.closeHandled then conn
  else if conn.isAlive = false then { conn with isOpen := false }
  else { conn with isAlive := false }

/-- The `setInterval` heartbeat sweep over all connections. -/
def tickStep (s : ServerState) : ServerState :=
  { s with conns := s.conns.map (fun kc => (kc.1, tickConn kc.2)) }

/-- Register a fresh connection (the `wss.on("connection", ...)` prologue:
`player = null`, `ws.isAlive = true`). -/
def addConn (s : ServerState) (c : ConnId) : ServerState :=
  { s with conns := (c, ⟨true, true, false, none⟩) :: s.conns }

/-! ## Events and reachability -/

/-- The serialized event alphabet of the single-threaded event loop. -/
inductive Event where
  | connect : ConnId → Event
  | message : ConnId → InMsg → Nat → Event   -- carries the Date.now() at dispatch
  | socketDown : ConnId → Event
  | close : ConnId → Event
  | pong : ConnId → Event
  | tick : Event
deriving Repr, DecidableEq

/-- One event-loop step of variant `v`.  `message` requires the sender's
socket to be open (frames are only delivered on open sockets) and the
handler not to throw; `close` fires at most once per connection. -/
inductive Step (v : Variant) : ServerState → ServerState → Prop where
  | connect {s : ServerState} (c : ConnId) (h : getConn s.conns c = none) :
      Step v s (addConn s c)
  | message {s s' : ServerState} (c : ConnId) (m : InMsg) (now : Nat)
      (hopen : connIsOpen s c = true)
      (h : handleMessage v s c m now = .ok s') : Step v s s'
  | socketDown {s : ServerState} (c : ConnId) (h : (getConn s.conns c).isSome) :
      Step v s (markDown s c)
  | close {s : ServerState} (c : ConnId) (conn : Conn)
      (h : getConn s.conns c = some conn) (hh : conn.closeHandled = false) :
      Step v s (closeEvent v s c)
  | pong {s : ServerState} (c : ConnId) (h : (getConn s.conns c).isSome) :
      Step v s (markAlive s c)
  | tick {s : ServerState} : Step v s (tickStep s)

/-- The empty initial state (`let queue = []`, no connections yet). -/
def initState : ServerState := ⟨[], [], []⟩

/-- States reachable from startup by serialized events. -/
inductive Reachable (v : Variant) : ServerState → Prop where
  | init : Reachable v initState
  | step {s s' : ServerState} : Reachable v s → Step v s s' → Reachable v s'

/-- Executable event interpreter mirroring `Step` (used to exhibit
concrete reachable states; `none` when a precondition fails or the
handler throws). -/
def applyEvent (v : Variant) (s : ServerState) : Event → Option ServerState
  | .connect c => if getConn s.conns c = none then some (addConn s c) else none
  | .message c m now =>
    if connIsOpen s c then
      match handleMessage v s c m now with
      | .ok s' => some s'
      | .error _ => none
    else none
  | .socketDown c => if (getConn s.conns c).isSome then some (markDown s c) else none
  | .close c =>
    match getConn s.conns c with
    | some conn => if conn.closeHandled = false then some (closeEvent v s c) else none
    | none => none
  | .pong c => if (getConn s.conns c).isSome then some (markAlive s c) else none
  | .tick => some (tickStep s)

/-- Run a list of events from a state. -/
def runFrom (v : Variant) (s : ServerState) : List Event → Option ServerState
  | [] => some s
  | e :: evs =>
    match applyEvent v s e with
    | some s' => runFrom v s' evs
    | none => none

/-- Run a list of events from startup. -/
def runEvents (v : Variant) (evs : List Event) : Option ServerState :=
  runFrom v initState evs

theorem step_of_applyEvent {v : Variant} {s s' : ServerState} {e : Event}
    (h : applyEvent v s e = some s') : Step v s s' := by
  cases e with
  | connect c =>
    simp only [applyEvent] at h
    split at h
    · cases h; exact Step.connect c (by assumption)
    · cases h
  | message c m now =>
    simp only [applyEvent] at h
    split at h
    · rename_i hopen
      split at h
      · cases h; exact Step.message c m now hopen (by assumption)
      · cases h
    · cases h
  | socketDown c =>
    simp only [applyEvent] at h
    split at h
    · cases h; exact Step.socketDown c (by assumption)
    · cases h
  | close c =>
    simp only [applyEvent] at h
    split at h
    · rename_i conn hconn
      split at h
      · cases h; exact Step.close c conn hconn (by assumption)
      · cases h
    · cases h
  | pong c =>
    simp only [applyEvent] at h
    split at h
    · cases h; exact Step.pong c (by assumption)
    · cases h
  | tick =>
    simp only [applyEvent] at h
    cases h; exact Step.tick

theorem reachable_of_runFrom {v : Variant} {s s' : ServerState} {evs : List Event}
    (hs : Reachable v s) (h : runFrom v s evs = some s') : Reachable v s' := by
  induction evs generalizing s with
  | nil => simp only [runFrom] at h; cases h; exact hs
  | cons e evs ih =>
    simp only [runFrom] at h
    split at h
    · rename_i s1 h1
      exact ih (Reachable.step hs (step_of_applyEvent h1)) h
    · cases h

/-- A state computed by the executable interpreter is reachable. -/
theorem reachable_of_run {v : Variant} {s : ServerState} {evs : List Event}
    (h : runEvents v evs = some s) : Reachable v s :=
  reachable_of_runFrom Reachable.init h

/-- The state a successful event list leads to (defaulting to the initial
state), used to exhibit concrete reachable states. -/
def runD (v : Variant) (evs : List Event) : ServerState :=
  (runEvents v evs).getD initState

/-! ## Lemmas about the connection store -/

theorem getConn_modConn (c c' : ConnId) (f : Conn → Conn) (l : List (ConnId × Conn)) :
    getConn (modConn c f l) c' = if c' = c then (getConn l c').map f else getConn l c' := by
  induction l with
  | nil => simp [modConn, getConn]
  | cons kv rest ih =>
    obtain ⟨k, v⟩ := kv
    simp only [modConn, getConn]
    by_cases hk : k = c'
    · subst hk
      by_cases hc : k = c <;> simp [hc, ih]
    · by_cases hc : c' = c
      · subst hc
        simp [hk, ih]
      · simp [hk, hc, ih]

theorem modConn_keys (c : ConnId) (f : Conn → Conn) (l : List (ConnId × Conn)) :
    (modConn c f l).map Prod.fst = l.map Prod.fst := by
  induction l with
  | nil => rfl
  | cons kv rest ih => obtain ⟨k, v⟩ := kv; simp [modConn, ih]

theorem getConn_mapConns (f : Conn → Conn) (l : List (ConnId × Conn)) (c : ConnId) :
    getConn (l.map (fun kc => (kc.1, f kc.2))) c = (getConn l c).map f := by
  induction l with
  | nil => rfl
  | cons kv rest ih =>
    obtain ⟨k, v⟩ := kv
    simp only [List.map, getConn]
    by_cases hk : k = c <;> simp [hk, ih]

theorem getConn_eq_none_iff (l : List (ConnId × Conn)) (c : ConnId) :
    getConn l c = none ↔ c ∉ l.map Prod.fst := by
  induction l with
  | nil => simp [getConn]
  | cons kv rest ih =>
    obtain ⟨k, v⟩ := kv
    simp only [getConn, List.map, List.mem_cons]
    by_cases hk : k = c
    · subst hk; simp
    · have hck : c ≠ k := fun h => hk h.symm
      simp [hk, hck, ih]

theorem getConn_isSome_of_eq {l : List (ConnId × Conn)} {c : ConnId} {conn : Conn}
    (h : getConn l c = some conn) : c ∈ l.map Prod.fst := by
  by_contra hmem
  rw [← getConn_eq_none_iff] at hmem
  rw [h] at hmem
  cases hmem

/-! Projections of the state updaters. -/

theorem safeSend_conns (s : ServerState) (c : ConnId) (m : OutMsg) :
    (safeSend s c m).conns = s.conns := by
  unfold safeSend; split <;> rfl

theorem safeSend_queue (s : ServerState) (c : ConnId) (m : OutMsg) :
    (safeSend s c m).queue = s.queue := by
  unfold safeSend; split <;> rfl

theorem setOpp_queue (s : ServerState) (c : ConnId) (o : Option ConnId) :
    (setOpp s c o).queue = s.queue := rfl

theorem setOpp_outbox (s : ServerState) (c : ConnId) (o : Option ConnId) :
    (setOpp s c o).outbox = s.outbox := rfl

theorem getConn_setOpp (s : ServerState) (c c' : ConnId) (o : Option ConnId) :
    getConn (setOpp s c o).conns c' =
      if c' = c then
        (getConn s.conns c').map
          (fun conn => { conn with player := conn.player.map (fun p => { p with opponent := o }) })
      else getConn s.conns c' := by
  unfold setOpp
  exact getConn_modConn c c' _ s.conns

/-! ## The stable sort by mmr -/

theorem jLtB_asymm {a b : JNum} (h : jLtB a b = true) : jLtB b a = false := by
  cases a <;> cases b <;> simp_all [jLtB] <;> omega

theorem perm_insertByMmr (p : QEntry) (l : List QEntry) :
    (insertByMmr p l).Perm (p :: l) := by
  induction l with
  | nil => exact List.Perm.refl _
  | cons q t ih =>
    simp only [insertByMmr]
    split
    · exact (ih.cons q).trans (List.Perm.swap p q t)
    · exact List.Perm.refl _

theorem sortByMmr_perm (l : List QEntry) : (sortByMmr l).Perm l := by
  induction l with
  | nil => exact List.Perm.refl _
  | cons p t ih => exact (perm_insertByMmr p (sortByMmr t)).trans (ih.cons p)

theorem head?_insertByMmr (p : QEntry) (l : List QEntry) (y : QEntry)
    (h : (insertByMmr p l).head? = some y) : y = p ∨ l.head? = some y := by
  cases l with
  | nil => simp [insertByMmr] at h; exact Or.inl h.symm
  | cons q t =>
    simp only [insertByMmr] at h
    split at h
    · simp at h; exact Or.inr (by simp [h])
    · simp at h; exact Or.inl h.symm

/-- The comparator order produced by the sort: no later element is
strictly below an earlier one. -/
def SortedMmr (l : List QEntry) : Prop :=
  List.Chain' (fun a b => jLtB b.mmr a.mmr = false) l

theorem chain'_insertByMmr (p : QEntry) (l : List QEntry) (h : SortedMmr l) :
    SortedMmr (insertByMmr p l) := by
  induction l with
  | nil => simp [insertByMmr, SortedMmr]
  | cons q t ih =>
    simp only [insertByMmr]
    split
    · rename_i hlt
      have ht : SortedMmr t := (List.chain'_cons'.mp h).2
      have hq := (List.chain'_cons'.mp h).1
      refine List.chain'_cons'.mpr ⟨?_, ih ht⟩
      intro y hy
      rcases head?_insertByMmr p t y hy with rfl | hy'
      · exact jLtB_asymm hlt
      · exact hq y hy'
    · rename_i hge
      refine List.chain'_cons'.mpr ⟨?_, h⟩
      intro y hy
      simp at hy
      subst hy
      simpa using hge

theorem sortByMmr_sorted (l : List QEntry) : SortedMmr (sortByMmr l) := by
  induction l with
  | nil => simp [sortByMmr, SortedMmr]
  | cons p t ih => exact chain'_insertByMmr p (sortByMmr t) ih

theorem chain'_imp_mem {α : Type} {R S : α → α → Prop} {l : List α}
    (h : ∀ a ∈ l, ∀ b ∈ l, R a b → S a b) (hc : List.Chain' R l) : List.Chain' S l := by
  induction l with
  | nil => exact List.chain'_nil
  | cons x t ih =>
    refine List.chain'_cons'.mpr ⟨?_, ?_⟩
    · intro y hy
      have hyt : y ∈ t := List.mem_of_mem_head? hy
      exact h x (by simp) y (by simp [hyt]) ((List.chain'_cons'.mp hc).1 y hy)
    · exact ih (fun a ha b hb => h a (by simp [ha]) b (by simp [hb])) (List.chain'_cons'.mp hc).2

/-! ## Characterization of the adjacent-pair scan -/

theorem matchScan_perm (fb : Bool) (now : Nat) :
    ∀ (l : List QEntry) (a b : QEntry) (rest : List QEntry),
      matchScan fb now l = some (a, b, rest) → l.Perm (a :: b :: rest) := by
  intro l
  induction l with
  | nil => intro a b rest h; simp [matchScan] at h
  | cons p1 t ih =>
    cases t with
    | nil => intro a b rest h; simp [matchScan] at h
    | cons p2 t2 =>
      intro a b rest h
      simp only [matchScan] at h
      by_cases hq : qualifies fb now p1 p2 = true
      · rw [if_pos hq] at h
        simp only [Option.some.injEq, Prod.mk.injEq] at h
        obtain ⟨rfl, rfl, rfl⟩ := h
        exact List.Perm.refl _
      · rw [if_neg hq] at h
        cases hrec : matchScan fb now (p2 :: t2) with
        | none => simp [hrec] at h
        | some trip =>
          obtain ⟨a2, b2, rest2⟩ := trip
          simp only [hrec, Option.some.injEq, Prod.mk.injEq] at h
          obtain ⟨rfl, rfl, hr⟩ := h
          subst hr
          have hperm := ih a2 b2 rest2 hrec
          exact (hperm.cons p1).trans
            ((List.Perm.swap a2 p1 _).trans ((List.Perm.swap b2 p1 rest2).cons a2))

theorem matchScan_none_iff (fb : Bool) (now : Nat) :
    ∀ (l : List QEntry),
      matchScan fb now l = none ↔ List.Chain' (fun x y => qualifies fb now x y = false) l := by
  intro l
  induction l with
  | nil => simp [matchScan]
  | cons p1 t ih =>
    cases t with
    | nil => simp [matchScan]
    | cons p2 t2 =>
      simp only [matchScan]
      rw [List.chain'_cons]
      by_cases hq : qualifies fb now p1 p2 = true
      · rw [if_pos hq]
        simp [hq]
      · rw [if_neg hq]
        cases hrec : matchScan fb now (p2 :: t2) with
        | none =>
          simp only [hrec]
          have h2 := (ih).mp hrec
          simp [Bool.eq_false_iff.mpr hq, h2]
        | some trip =>
          obtain ⟨a2, b2, rest2⟩ := trip
          simp only [hrec]
          have h2 : ¬ matchScan fb now (p2 :: t2) = none := by simp [hrec]
          rw [ih] at h2
          simp [h2]

theorem matchScan_first (fb : Bool) (now : Nat) :
    ∀ (l : List QEntry) (a b : QEntry) (rest : List QEntry),
      matchScan fb now l = some (a, b, rest) →
      ∃ i, ∃ hi : i + 1 < l.length,
        a = l.get ⟨i, Nat.lt_of_succ_lt hi⟩ ∧ b = l.get ⟨i + 1, hi⟩ ∧
        qualifies fb now a b = true ∧
        List.Chain' (fun x y => qualifies fb now x y = false) (l.take (i + 1)) ∧
        rest = l.take i ++ l.drop (i + 2) := by
  intro l
  induction l with
  | nil => intro a b rest h; simp [matchScan] at h
  | cons p1 t ih =>
    cases t with
    | nil => intro a b rest h; simp [matchScan] at h
    | cons p2 t2 =>
      intro a b rest h
      simp only [matchScan] at h
      by_cases hq : qualifies fb now p1 p2 = true
      · rw [if_pos hq] at h
        simp only [Option.some.injEq, Prod.mk.injEq] at h
        obtain ⟨rfl, rfl, rfl⟩ := h
        refine ⟨0, by simp, rfl, rfl, hq, by simp, by simp⟩
      · rw [if_neg hq] at h
        cases hrec : matchScan fb now (p2 :: t2) with
        | none => simp [hrec] at h
        | some trip =>
          obtain ⟨a2, b2, rest2⟩ := trip
          simp only [hrec, Option.some.injEq, Prod.mk.injEq] at h
          obtain ⟨rfl, rfl, hr⟩ := h
          subst hr
          obtain ⟨i, hi, ha, hb, hqual, hchain, hrest⟩ := ih a2 b2 rest2 hrec
          refine ⟨i + 1, by simpa using Nat.succ_lt_succ hi, ?_, ?_, hqual, ?_, ?_⟩
          · simpa using ha
          · simpa using hb
          · rw [List.take_succ_cons]
            refine List.chain'_cons'.mpr ⟨?_, hchain⟩
            intro y hy
            have htk : (p2 :: t2).take (i + 1) = p2 :: t2.take i := List.take_succ_cons
            rw [htk] at hy
            simp at hy
            subst hy
            simpa using hq
          · simp [List.take_succ_cons, List.drop_succ_cons, hrest]

/-! ## The reachable-state invariant

The inductive invariant that carries the opponent-symmetry claim through
every event.  All of it is about the connection store and the queue; the
outbox never matters. -/

structure Inv (s : ServerState) : Prop where
  nodupKeys : (s.conns.map Prod.fst).Nodup
  closedNotOpen : ∀ c conn, getConn s.conns c = some conn → conn.closeHandled = true →
      conn.isOpen = false
  queueConn : ∀ e ∈ s.queue, ∃ conn p, getConn s.conns e.ws = some conn ∧
      conn.player = some p ∧ p.opponent = none
  queueNodup : (s.queue.map QEntry.ws).Nodup
  oppTarget : ∀ c conn p b, getConn s.conns c = some conn → conn.player = some p →
      p.opponent = some b →
      b ≠ c ∧ (∃ connB pB, getConn s.conns b = some connB ∧ connB.player = some pB) ∧
      ∀ e ∈ s.queue, e.ws ≠ b
  oppUnique : ∀ c1 conn1 p1 c2 conn2 p2 b,
      getConn s.conns c1 = some conn1 → conn1.player = some p1 → p1.opponent = some b →
      getConn s.conns c2 = some conn2 → conn2.player = some p2 → p2.opponent = some b →
      c1 = c2
  oppMut : ∀ c conn p b connB pB,
      getConn s.conns c = some conn → conn.player = some p → p.opponent = some b →
      getConn s.conns b = some connB → connB.player = some pB →
      pB.opponent = some c ∨ (pB.opponent = none ∧ conn.closeHandled = true)

theorem inv_congr {s s' : ServerState} (hc : s'.conns = s.conns) (hq : s'.queue = s.queue)
    (h : Inv s) : Inv s' := by
  constructor
  · rw [hc]; exact h.nodupKeys
  · rw [hc]; exact h.closedNotOpen
  · rw [hc, hq]; exact h.queueConn
  · rw [hq]; exact h.queueNodup
  · rw [hc, hq]; exact h.oppTarget
  · rw [hc]; exact h.oppUnique
  · rw [hc]; exact h.oppMut

/-- Updates that leave every player field alone, never reset
`closeHandled`, and keep a closed connection's socket non-open, preserve
the invariant.  `g c` is the per-connection transformation actually
applied at id `c`. -/
theorem inv_transform {s s' : ServerState} (g : ConnId → Conn → Conn) (h : Inv s)
    (hq : s'.queue = s.queue)
    (hlk : ∀ c, getConn s'.conns c = (getConn s.conns c).map (g c))
    (hkeys : s'.conns.map Prod.fst = s.conns.map Prod.fst)
    (hp : ∀ c conn, (g c conn).player = conn.player)
    (hm : ∀ c conn, conn.closeHandled = true → (g c conn).closeHandled = true)
    (hcn : ∀ c conn, (conn.closeHandled = true → conn.isOpen = false) →
        ((g c conn).closeHandled = true → (g c conn).isOpen = false)) : Inv s' := by
  constructor
  · rw [hkeys]; exact h.nodupKeys
  · intro c conn hg hcl
    rw [hlk c] at hg
    cases hsc : getConn s.conns c with
    | none => rw [hsc] at hg; cases hg
    | some conn0 =>
      rw [hsc] at hg
      simp only [Option.map_some'] at hg
      cases hg
      exact hcn c conn0 (h.closedNotOpen c conn0 hsc) hcl
  · intro e he
    rw [hq] at he
    obtain ⟨conn, p, hc, hpl, hop⟩ := h.queueConn e he
    exact ⟨g e.ws conn, p, by rw [hlk, hc]; rfl, by rw [hp]; exact hpl, hop⟩
  · rw [hq]; exact h.queueNodup
  · intro c conn p b hg hpl hop
    rw [hlk c] at hg
    cases hsc : getConn s.conns c with
    | none => rw [hsc] at hg; cases hg
    | some conn0 =>
      rw [hsc] at hg; simp only [Option.map_some'] at hg; cases hg
      rw [hp] at hpl
      obtain ⟨hne, ⟨connB, pB, hcb, hplb⟩, hqz⟩ := h.oppTarget c conn0 p b hsc hpl hop
      refine ⟨hne, ⟨g b connB, pB, by rw [hlk, hcb]; rfl, by rw [hp]; exact hplb⟩, ?_⟩
      intro e he
      rw [hq] at he
      exact hqz e he
  · intro c1 conn1 p1 c2 conn2 p2 b hg1 hpl1 hop1 hg2 hpl2 hop2
    rw [hlk c1] at hg1
    rw [hlk c2] at hg2
    cases hsc1 : getConn s.conns c1 with
    | none => rw [hsc1] at hg1; cases hg1
    | some conn01 =>
      rw [hsc1] at hg1; simp only [Option.map_some'] at hg1; cases hg1
      cases hsc2 : getConn s.conns c2 with
      | none => rw [hsc2] at hg2; cases hg2
      | some conn02 =>
        rw [hsc2] at hg2; simp only [Option.map_some'] at hg2; cases hg2
        rw [hp] at hpl1 hpl2
        exact h.oppUnique c1 conn01 p1 c2 conn02 p2 b hsc1 hpl1 hop1 hsc2 hpl2 hop2
  · intro c conn p b connB pB hg hpl hop hgb hplb
    rw [hlk c] at hg
    rw [hlk b] at hgb
    cases hsc : getConn s.conns c with
    | none => rw [hsc] at hg; cases hg
    | some conn0 =>
      rw [hsc] at hg; simp only [Option.map_some'] at hg; cases hg
      cases hscb : getConn s.conns b with
      | none => rw [hscb] at hgb; cases hgb
      | some connB0 =>
        rw [hscb] at hgb; simp only [Option.map_some'] at hgb; cases hgb
        rw [hp] at hpl hplb
        rcases h.oppMut c conn0 p b connB0 pB hsc hpl hop hscb hplb with hmut | ⟨hnone, hclh⟩
        · exact Or.inl hmut
        · exact Or.inr ⟨hnone, hm c conn0 hclh⟩

/-- Replacing the queue by one whose members all come from the old queue
(with no duplicated owners) preserves the invariant. -/
theorem inv_subQueue {s : ServerState} {q' : List QEntry}
    (hsub : ∀ e ∈ q', e ∈ s.queue) (hnd : (q'.map QEntry.ws).Nodup)
    (h : Inv s) : Inv { s with queue := q' } := by
  constructor
  · exact h.nodupKeys
  · exact h.closedNotOpen
  · intro e he; exact h.queueConn e (hsub e he)
  · exact hnd
  · intro c conn p b hg hpl hop
    obtain ⟨hne, hex, hqz⟩ := h.oppTarget c conn p b hg hpl hop
    exact ⟨hne, hex, fun e he => hqz e (hsub e he)⟩
  · exact h.oppUnique
  · exact h.oppMut

theorem inv_markDown {s : ServerState} (c : ConnId) (h : Inv s) : Inv (markDown s c) := by
  refine inv_transform (fun x conn => if x = c then { conn with isOpen := false } else conn)
    h rfl ?_ (modConn_keys c _ s.conns) ?_ ?_ ?_
  · intro x
    rw [show (markDown s c).conns = modConn c (fun conn => { conn with isOpen := false }) s.conns
      from rfl, getConn_modConn]
    by_cases hx : x = c <;> cases getConn s.conns x <;> simp [hx]
  · intro x conn; by_cases hx : x = c <;> simp [hx]
  · intro x conn hcl; by_cases hx : x = c <;> simp [hx, hcl]
  · intro x conn hyp hcl
    by_cases hx : x = c
    · simp [hx]
    · simp only [hx, if_false, if_neg] at hcl ⊢
      exact hyp hcl

theorem inv_markAlive {s : ServerState} (c : ConnId) (h : Inv s) : Inv (markAlive s c) := by
  refine inv_transform (fun x conn => if x = c then { conn with isAlive := true } else conn)
    h rfl ?_ (modConn_keys c _ s.conns) ?_ ?_ ?_
  · intro x
    rw [show (markAlive s c).conns = modConn c (fun conn => { conn with isAlive := true }) s.conns
      from rfl, getConn_modConn]
    by_cases hx : x = c <;> cases getConn s.conns x <;> simp [hx]
  · intro x conn; by_cases hx : x = c <;> simp [hx]
  · intro x conn hcl; by_cases hx : x = c <;> simp [hx, hcl]
  · intro x conn hyp hcl
    by_cases hx : x = c <;> simp [hx] at hcl ⊢ <;> exact hyp hcl

theorem inv_markClosed {s : ServerState} (c : ConnId) (h : Inv s) : Inv (markClosed s c) := by
  refine inv_transform
    (fun x conn => if x = c then { conn with isOpen := false, closeHandled := true } else conn)
    h rfl ?_ (modConn_keys c _ s.conns) ?_ ?_ ?_
  · intro x
    rw [show (markClosed s c).conns =
      modConn c (fun conn => { conn with isOpen := false, closeHandled := true }) s.conns
      from rfl, getConn_modConn]
    by_cases hx : x = c <;> cases getConn s.conns x <;> simp [hx]
  · intro x conn; by_cases hx : x = c <;> simp [hx]
  · intro x conn hcl; by_cases hx : x = c <;> simp [hx, hcl]
  · intro x conn hyp hcl
    by_cases hx : x = c
    · simp [hx]
    · simp [hx] at hcl ⊢
      exact hyp hcl

theorem inv_tickStep {s : ServerState} (h : Inv s) : Inv (tickStep s) := by
  refine inv_transform (fun _ conn => tickConn conn) h rfl ?_ ?_ ?_ ?_ ?_
  · intro x
    exact getConn_mapConns tickConn s.conns x
  · show (s.conns.map (fun kc => (kc.1, tickConn kc.2))).map Prod.fst = s.conns.map Prod.fst
    simp
  · intro _ conn
    show (tickConn conn).player = conn.player
    unfold tickConn; split
    · rfl
    · split <;> rfl
  · intro _ conn hcl
    show (tickConn conn).closeHandled = true
    unfold tickConn; split
    · exact hcl
    · exact hcl
  · intro x conn hyp hcl
    have hcl2 : (tickConn conn).closeHandled = true := hcl
    show (tickConn conn).isOpen = false
    unfold tickConn at hcl2 ⊢
    by_cases hch : conn.closeHandled = true
    · rw [if_pos hch] at hcl2 ⊢
      exact hyp hcl2
    · rw [if_neg hch] at hcl2 ⊢
      by_cases hal : conn.isAlive = false
      · rw [if_pos hal]
      · rw [if_neg hal] at hcl2 ⊢
        exact absurd hcl2 hch

theorem inv_addConn {s : ServerState} (c : ConnId) (hfresh : getConn s.conns c = none)
    (h : Inv s) : Inv (addConn s c) := by
  have hnot : c ∉ s.conns.map Prod.fst := (getConn_eq_none_iff s.conns c).mp hfresh
  have hlk : ∀ x, getConn (addConn s c).conns x =
      if c = x then some ⟨true, true, false, none⟩ else getConn s.conns x := by
    intro x; rfl
  constructor
  · show (((c, (⟨true, true, false, none⟩ : Conn)) :: s.conns).map Prod.fst).Nodup
    simp only [List.map_cons, List.nodup_cons]
    exact ⟨hnot, h.nodupKeys⟩
  · intro x conn hg hcl
    rw [hlk] at hg
    by_cases hx : c = x
    · rw [if_pos hx] at hg; cases hg; cases hcl
    · rw [if_neg hx] at hg; exact h.closedNotOpen x conn hg hcl
  · intro e he
    obtain ⟨conn, p, hc, hpl, hop⟩ := h.queueConn e he
    refine ⟨conn, p, ?_, hpl, hop⟩
    rw [hlk]
    have : ¬ c = e.ws := by
      intro hce; subst hce; rw [hfresh] at hc; cases hc
    rw [if_neg this]; exact hc
  · exact h.queueNodup
  · intro x conn p b hg hpl hop
    rw [hlk] at hg
    by_cases hx : c = x
    · rw [if_pos hx] at hg; cases hg; cases hpl
    · rw [if_neg hx] at hg
      obtain ⟨hne, ⟨connB, pB, hcb, hplb⟩, hqz⟩ := h.oppTarget x conn p b hg hpl hop
      refine ⟨hne, ⟨connB, pB, ?_, hplb⟩, hqz⟩
      rw [hlk]
      have : ¬ c = b := by
        intro hcb2; subst hcb2; rw [hfresh] at hcb; cases hcb
      rw [if_neg this]; exact hcb
  · intro c1 conn1 p1 c2 conn2 p2 b hg1 hpl1 hop1 hg2 hpl2 hop2
    rw [hlk] at hg1 hg2
    by_cases h1 : c = c1
    · rw [if_pos h1] at hg1; cases hg1; cases hpl1
    · rw [if_neg h1] at hg1
      by_cases h2 : c = c2
      · rw [if_pos h2] at hg2; cases hg2; cases hpl2
      · rw [if_neg h2] at hg2
        exact h.oppUnique c1 conn1 p1 c2 conn2 p2 b hg1 hpl1 hop1 hg2 hpl2 hop2
  · intro x conn p b connB pB hg hpl hop hgb hplb
    rw [hlk] at hg hgb
    by_cases hx : c = x
    · rw [if_pos hx] at hg; cases hg; cases hpl
    · rw [if_neg hx] at hg
      by_cases hb : c = b
      · rw [if_pos hb] at hgb; cases hgb; cases hplb
      · rw [if_neg hb] at hgb
        exact h.oppMut x conn p b connB pB hg hpl hop hgb hplb

theorem inv_pushPlayer {s : ServerState} {c : ConnId} {conn0 : Conn}
    (h : Inv s) (hc0 : getConn s.conns c = some conn0) (hnp : conn0.player = none)
    (pid : String) (m : JNum) (now : Nat) : Inv (pushPlayer s c pid m now) := by
  set P : PlayerData := ⟨pid, m, now, none⟩ with hP
  have hlk : ∀ x, getConn (pushPlayer s c pid m now).conns x =
      if x = c then some { conn0 with player := some P } else getConn s.conns x := by
    intro x
    rw [show (pushPlayer s c pid m now).conns =
      modConn c (fun conn => { conn with player := some P }) s.conns from rfl, getConn_modConn]
    by_cases hx : x = c
    · subst hx; rw [if_pos rfl, if_pos rfl, hc0]; rfl
    · rw [if_neg hx, if_neg hx]
  have hqe : (pushPlayer s c pid m now).queue = s.queue ++ [⟨c, pid, m, now⟩] := rfl
  have hcq : ∀ e ∈ s.queue, e.ws ≠ c := by
    intro e he hec
    obtain ⟨conn, p, hcn, hpl, _⟩ := h.queueConn e he
    rw [hec, hc0] at hcn
    cases hcn
    rw [hnp] at hpl
    cases hpl
  have hnt : ∀ x connx px, getConn s.conns x = some connx → connx.player = some px →
      px.opponent ≠ some c := by
    intro x connx px hgx hplx hox
    obtain ⟨_, ⟨connB, pB, hcb, hplb⟩, _⟩ := h.oppTarget x connx px c hgx hplx hox
    rw [hc0] at hcb
    cases hcb
    rw [hnp] at hplb
    cases hplb
  constructor
  · show ((modConn c _ s.conns).map Prod.fst).Nodup
    rw [modConn_keys]
    exact h.nodupKeys
  · intro x conn hg hcl
    rw [hlk] at hg
    by_cases hx : x = c
    · rw [if_pos hx] at hg
      cases hg
      subst hx
      exact h.closedNotOpen x conn0 hc0 hcl
    · rw [if_neg hx] at hg
      exact h.closedNotOpen x conn hg hcl
  · intro e he
    rw [hqe] at he
    rcases List.mem_append.mp he with he1 | he2
    · obtain ⟨conn, p, hcn, hpl, hop⟩ := h.queueConn e he1
      refine ⟨conn, p, ?_, hpl, hop⟩
      rw [hlk, if_neg (hcq e he1)]
      exact hcn
    · simp only [List.mem_singleton] at he2
      subst he2
      exact ⟨{ conn0 with player := some P }, P, by rw [hlk]; simp, rfl, rfl⟩
  · rw [hqe, List.map_append]
    rw [List.nodup_append]
    refine ⟨h.queueNodup, by simp, ?_⟩
    intro x hx hx2
    simp only [List.map_cons, List.map_nil, List.mem_singleton] at hx2
    subst hx2
    obtain ⟨e, he, hew⟩ := List.mem_map.mp hx
    exact hcq e he hew
  · intro x conn p b hg hpl hop
    rw [hlk] at hg
    by_cases hx : x = c
    · rw [if_pos hx] at hg
      cases hg
      simp only at hpl
      cases hpl
      cases hop
    · rw [if_neg hx] at hg
      obtain ⟨hne, ⟨connB, pB, hcb, hplb⟩, hqz⟩ := h.oppTarget x conn p b hg hpl hop
      have hbc : b ≠ c := by
        intro hbc; subst hbc
        rw [hc0] at hcb
        cases hcb
        rw [hnp] at hplb
        cases hplb
      refine ⟨hne, ⟨connB, pB, by rw [hlk, if_neg hbc]; exact hcb, hplb⟩, ?_⟩
      intro e he
      rw [hqe] at he
      rcases List.mem_append.mp he with he1 | he2
      · exact hqz e he1
      · simp only [List.mem_singleton] at he2
        subst he2
        exact fun hEq => hbc hEq.symm
  · intro c1 conn1 p1 c2 conn2 p2 b hg1 hpl1 hop1 hg2 hpl2 hop2
    rw [hlk] at hg1 hg2
    by_cases h1 : c1 = c
    · rw [if_pos h1] at hg1
      cases hg1
      simp only at hpl1
      cases hpl1
      cases hop1
    · rw [if_neg h1] at hg1
      by_cases h2 : c2 = c
      · rw [if_pos h2] at hg2
        cases hg2
        simp only at hpl2
        cases hpl2
        cases hop2
      · rw [if_neg h2] at hg2
        exact h.oppUnique c1 conn1 p1 c2 conn2 p2 b hg1 hpl1 hop1 hg2 hpl2 hop2
  · intro x conn p b connB pB hg hpl hop hgb hplb
    rw [hlk] at hg hgb
    by_cases hx : x = c
    · rw [if_pos hx] at hg
      cases hg
      simp only at hpl
      cases hpl
      cases hop
    · rw [if_neg hx] at hg
      have hbc : b ≠ c := by
        intro hbc
        exact hnt x conn p hg hpl (hbc ▸ hop)
      rw [if_neg hbc] at hgb
      exact h.oppMut x conn p b connB pB hg hpl hop hgb hplb

/-- Clearing the `opponent` field of `oc`'s player preserves the
invariant, provided every connection pointing at `oc` has already had its
`"close"` event (which is how the code only ever clears it). -/
theorem inv_clearOpp {s : ServerState} {oc : ConnId} (h : Inv s)
    (hcl : ∀ x connx px, getConn s.conns x = some connx → connx.player = some px →
        px.opponent = some oc → connx.closeHandled = true) :
    Inv (setOpp s oc none) := by
  have hlk : ∀ x, getConn (setOpp s oc none).conns x =
      if x = oc then
        (getConn s.conns x).map
          (fun conn => { conn with player := conn.player.map (fun p => { p with opponent := none }) })
      else getConn s.conns x := fun x => getConn_setOpp s oc x none
  have hqe : (setOpp s oc none).queue = s.queue := rfl
  constructor
  · show ((modConn oc _ s.conns).map Prod.fst).Nodup
    rw [modConn_keys]
    exact h.nodupKeys
  · intro x conn hg hclh
    rw [hlk] at hg
    by_cases hx : x = oc
    · rw [if_pos hx] at hg
      cases hoc : getConn s.conns x with
      | none => rw [hoc] at hg; cases hg
      | some conn1 =>
        rw [hoc] at hg
        simp only [Option.map_some'] at hg
        cases hg
        exact h.closedNotOpen x conn1 hoc hclh
    · rw [if_neg hx] at hg
      exact h.closedNotOpen x conn hg hclh
  · intro e he
    rw [hqe] at he
    obtain ⟨conn, p, hcn, hpl, hop⟩ := h.queueConn e he
    by_cases hx : e.ws = oc
    · refine ⟨{ conn with player := conn.player.map (fun q => { q with opponent := none }) },
        { p with opponent := none }, ?_, ?_, rfl⟩
      · rw [hlk, if_pos hx, hcn]; rfl
      · rw [hpl]; rfl
    · exact ⟨conn, p, by rw [hlk, if_neg hx]; exact hcn, hpl, hop⟩
  · rw [hqe]; exact h.queueNodup
  · intro x conn p b hg hpl hop
    rw [hlk] at hg
    by_cases hx : x = oc
    · rw [if_pos hx] at hg
      cases hoc : getConn s.conns x with
      | none => rw [hoc] at hg; cases hg
      | some conn1 =>
        rw [hoc] at hg
        simp only [Option.map_some'] at hg
        cases hg
        simp only at hpl
        cases hpl1 : conn1.player with
        | none => rw [hpl1] at hpl; cases hpl
        | some p1 =>
          rw [hpl1] at hpl
          simp only [Option.map_some'] at hpl
          cases hpl
          cases hop
    · rw [if_neg hx] at hg
      obtain ⟨hne, ⟨connB, pB, hcb, hplb⟩, hqz⟩ := h.oppTarget x conn p b hg hpl hop
      refine ⟨hne, ?_, by rw [hqe]; exact hqz⟩
      by_cases hb : b = oc
      · refine ⟨{ connB with player := connB.player.map (fun q => { q with opponent := none }) },
          { pB with opponent := none }, ?_, ?_⟩
        · rw [hlk, if_pos hb, hcb]; rfl
        · rw [hplb]; rfl
      · exact ⟨connB, pB, by rw [hlk, if_neg hb]; exact hcb, hplb⟩
  · intro c1 conn1 p1 c2 conn2 p2 b hg1 hpl1 hop1 hg2 hpl2 hop2
    rw [hlk] at hg1 hg2
    by_cases h1 : c1 = oc
    · rw [if_pos h1] at hg1
      cases hoc : getConn s.conns c1 with
      | none => rw [hoc] at hg1; cases hg1
      | some connA =>
        rw [hoc] at hg1
        simp only [Option.map_some'] at hg1
        cases hg1
        simp only at hpl1
        cases hplA : connA.player with
        | none => rw [hplA] at hpl1; cases hpl1
        | some pA =>
          rw [hplA] at hpl1
          simp only [Option.map_some'] at hpl1
          cases hpl1
          cases hop1
    · rw [if_neg h1] at hg1
      by_cases h2 : c2 = oc
      · rw [if_pos h2] at hg2
        cases hoc : getConn s.conns c2 with
        | none => rw [hoc] at hg2; cases hg2
        | some connA =>
          rw [hoc] at hg2
          simp only [Option.map_some'] at hg2
          cases hg2
          simp only at hpl2
          cases hplA : connA.player with
          | none => rw [hplA] at hpl2; cases hpl2
          | some pA =>
            rw [hplA] at hpl2
            simp only [Option.map_some'] at hpl2
            cases hpl2
            cases hop2
      · rw [if_neg h2] at hg2
        exact h.oppUnique c1 conn1 p1 c2 conn2 p2 b hg1 hpl1 hop1 hg2 hpl2 hop2
  · intro x conn p b connB pB hg hpl hop hgb hplb
    rw [hlk] at hg hgb
    by_cases hx : x = oc
    · rw [if_pos hx] at hg
      cases hoc : getConn s.conns x with
      | none => rw [hoc] at hg; cases hg
      | some connA =>
        rw [hoc] at hg
        simp only [Option.map_some'] at hg
        cases hg
        simp only at hpl
        cases hplA : connA.player with
        | none => rw [hplA] at hpl; cases hpl
        | some pA =>
          rw [hplA] at hpl
          simp only [Option.map_some'] at hpl
          cases hpl
          cases hop
    · rw [if_neg hx] at hg
      by_cases hb : b = oc
      · subst hb
        cases hoc : getConn s.conns b with
        | none => rw [if_pos rfl, hoc] at hgb; cases hgb
        | some connB0 =>
          rw [if_pos rfl, hoc] at hgb
          simp only [Option.map_some'] at hgb
          cases hgb
          refine Or.inr ⟨?_, hcl x conn p hg hpl hop⟩
          cases hplB0 : connB0.player with
          | none => rw [hplB0] at hplb; cases hplb
          | some pB0 =>
            rw [hplB0] at hplb
            simp only [Option.map_some'] at hplb
            cases hplb
            rfl
      · rw [if_neg hb] at hgb
        exact h.oppMut x conn p b connB pB hg hpl hop hgb hplb

/-- Pairing two queue-free, mutually fresh connections by setting their
mutual opponent references preserves the invariant. -/
theorem inv_matchPair {s : ServerState} {ca cb : ConnId} (h : Inv s) (hne : ca ≠ cb)
    (hpa : ∃ conn p, getConn s.conns ca = some conn ∧ conn.player = some p ∧ p.opponent = none)
    (hpb : ∃ conn p, getConn s.conns cb = some conn ∧ conn.player = some p ∧ p.opponent = none)
    (hqa : ∀ e ∈ s.queue, e.ws ≠ ca) (hqb : ∀ e ∈ s.queue, e.ws ≠ cb)
    (hnta : ∀ x connx px, getConn s.conns x = some connx → connx.player = some px →
        px.opponent ≠ some ca)
    (hntb : ∀ x connx px, getConn s.conns x = some connx → connx.player = some px →
        px.opponent ≠ some cb) :
    Inv (setOpp (setOpp s ca (some cb)) cb (some ca)) := by
  obtain ⟨connA, pA, hgA, hplA, hopA⟩ := hpa
  obtain ⟨connB, pB, hgB, hplB, hopB⟩ := hpb
  have hlk : ∀ x, getConn (setOpp (setOpp s ca (some cb)) cb (some ca)).conns x =
      if x = ca then
        (getConn s.conns ca).map
          (fun conn =>
            { conn with player := conn.player.map (fun p => { p with opponent := some cb }) })
      else if x = cb then
        (getConn s.conns cb).map
          (fun conn =>
            { conn with player := conn.player.map (fun p => { p with opponent := some ca }) })
      else getConn s.conns x := by
    intro x
    rw [getConn_setOpp, getConn_setOpp]
    by_cases hxb : x = cb
    · simp [hxb, Ne.symm hne]
    · by_cases hxa : x = ca
      · simp [hxa, hne]
      · simp [hxa, hxb]
  have hgA3 : getConn (setOpp (setOpp s ca (some cb)) cb (some ca)).conns ca =
      some { connA with player := some { pA with opponent := some cb } } := by
    rw [hlk, if_pos rfl, hgA]
    simp [hplA]
  have hgB3 : getConn (setOpp (setOpp s ca (some cb)) cb (some ca)).conns cb =
      some { connB with player := some { pB with opponent := some ca } } := by
    rw [hlk, if_neg (fun hEq => hne hEq.symm), if_pos rfl, hgB]
    simp [hplB]
  have hqe : (setOpp (setOpp s ca (some cb)) cb (some ca)).queue = s.queue := rfl
  constructor
  · show ((modConn cb _ (modConn ca _ s.conns)).map Prod.fst).Nodup
    rw [modConn_keys, modConn_keys]
    exact h.nodupKeys
  · intro x conn hg hclh
    rw [hlk] at hg
    by_cases hxa : x = ca
    · rw [if_pos hxa, hgA] at hg
      simp only [Option.map_some'] at hg
      cases hg
      exact h.closedNotOpen ca connA hgA hclh
    · rw [if_neg hxa] at hg
      by_cases hxb : x = cb
      · rw [if_pos hxb, hgB] at hg
        simp only [Option.map_some'] at hg
        cases hg
        exact h.closedNotOpen cb connB hgB hclh
      · rw [if_neg hxb] at hg
        exact h.closedNotOpen x conn hg hclh
  · intro e he
    rw [hqe] at he
    obtain ⟨conn, p, hcn, hpl, hop⟩ := h.queueConn e he
    refine ⟨conn, p, ?_, hpl, hop⟩
    rw [hlk, if_neg (hqa e he), if_neg (hqb e he)]
    exact hcn
  · rw [hqe]; exact h.queueNodup
  · intro x conn p b hg hpl hop
    rw [hlk] at hg
    by_cases hxa : x = ca
    · subst hxa
      rw [if_pos rfl, hgA] at hg
      simp only [Option.map_some'] at hg
      cases hg
      simp only [hplA, Option.map_some'] at hpl
      cases hpl
      cases hop
      refine ⟨fun hEq => hne hEq.symm, ⟨_, _, hgB3, rfl⟩, ?_⟩
      intro e he
      rw [hqe] at he
      exact hqb e he
    · rw [if_neg hxa] at hg
      by_cases hxb : x = cb
      · subst hxb
        rw [if_pos rfl, hgB] at hg
        simp only [Option.map_some'] at hg
        cases hg
        simp only [hplB, Option.map_some'] at hpl
        cases hpl
        cases hop
        refine ⟨hne, ⟨_, _, hgA3, rfl⟩, ?_⟩
        intro e he
        rw [hqe] at he
        exact hqa e he
      · rw [if_neg hxb] at hg
        obtain ⟨hnex, ⟨connT, pT, hgT, hplT⟩, hqz⟩ := h.oppTarget x conn p b hg hpl hop
        refine ⟨hnex, ?_, ?_⟩
        · by_cases hba : b = ca
          · subst hba
            exact ⟨_, _, hgA3, rfl⟩
          · by_cases hbb : b = cb
            · subst hbb
              exact ⟨_, _, hgB3, rfl⟩
            · refine ⟨connT, pT, ?_, hplT⟩
              rw [hlk, if_neg hba, if_neg hbb]
              exact hgT
        · intro e he
          rw [hqe] at he
          exact hqz e he
  · intro c1 conn1 p1 c2 conn2 p2 b hg1 hpl1 hop1 hg2 hpl2 hop2
    have key : ∀ cx connx px, getConn (setOpp (setOpp s ca (some cb)) cb (some ca)).conns cx =
        some connx → connx.player = some px → px.opponent = some b →
        (cx = ca ∧ b = cb) ∨ (cx = cb ∧ b = ca) ∨
        (cx ≠ ca ∧ cx ≠ cb ∧ getConn s.conns cx = some connx ∧ b ≠ ca ∧ b ≠ cb) := by
      intro cx connx px hgx hplx hopx
      rw [hlk] at hgx
      by_cases hxa : cx = ca
      · subst hxa
        rw [if_pos rfl, hgA] at hgx
        simp only [Option.map_some'] at hgx
        cases hgx
        simp only [hplA, Option.map_some'] at hplx
        cases hplx
        cases hopx
        exact Or.inl ⟨rfl, rfl⟩
      · rw [if_neg hxa] at hgx
        by_cases hxb : cx = cb
        · subst hxb
          rw [if_pos rfl, hgB] at hgx
          simp only [Option.map_some'] at hgx
          cases hgx
          simp only [hplB, Option.map_some'] at hplx
          cases hplx
          cases hopx
          exact Or.inr (Or.inl ⟨rfl, rfl⟩)
        · rw [if_neg hxb] at hgx
          refine Or.inr (Or.inr ⟨hxa, hxb, hgx, ?_, ?_⟩)
          · intro hba; subst hba; exact hnta cx connx px hgx hplx hopx
          · intro hbb; subst hbb; exact hntb cx connx px hgx hplx hopx
    rcases key c1 conn1 p1 hg1 hpl1 hop1 with ⟨rfl, rfl⟩ | ⟨rfl, rfl⟩ | ⟨hna1, hnb1, hs1, hba1, hbb1⟩
    · rcases key c2 conn2 p2 hg2 hpl2 hop2 with ⟨rfl, _⟩ | ⟨rfl, hEq⟩ | ⟨_, _, _, _, hbb2⟩
      · rfl
      · exact absurd hEq.symm hne
      · exact absurd rfl hbb2
    · rcases key c2 conn2 p2 hg2 hpl2 hop2 with ⟨rfl, hEq⟩ | ⟨rfl, _⟩ | ⟨_, _, _, hba2, _⟩
      · exact absurd hEq hne
      · rfl
      · exact absurd rfl hba2
    · rcases key c2 conn2 p2 hg2 hpl2 hop2 with ⟨rfl, hEq⟩ | ⟨rfl, hEq⟩ | ⟨hna2, hnb2, hs2, _, _⟩
      · exact absurd hEq hbb1
      · exact absurd hEq hba1
      · have hpl1s : conn1.player = some p1 := hpl1
        exact h.oppUnique c1 conn1 p1 c2 conn2 p2 b hs1 hpl1s hop1 hs2 hpl2 hop2
  · intro x conn p b connB2 pB2 hg hpl hop hgb hplb
    rw [hlk] at hg
    by_cases hxa : x = ca
    · subst hxa
      rw [if_pos rfl, hgA] at hg
      simp only [Option.map_some'] at hg
      cases hg
      simp only [hplA, Option.map_some'] at hpl
      cases hpl
      cases hop
      rw [hgB3] at hgb
      cases hgb
      simp only at hplb
      cases hplb
      exact Or.inl rfl
    · rw [if_neg hxa] at hg
      by_cases hxb : x = cb
      · subst hxb
        rw [if_pos rfl, hgB] at hg
        simp only [Option.map_some'] at hg
        cases hg
        simp only [hplB, Option.map_some'] at hpl
        cases hpl
        cases hop
        rw [hgA3] at hgb
        cases hgb
        simp only at hplb
        cases hplb
        exact Or.inl rfl
      · rw [if_neg hxb] at hg
        have hba : b ≠ ca := fun hEq => hnta x conn p hg hpl (hEq ▸ hop)
        have hbb : b ≠ cb := fun hEq => hntb x conn p hg hpl (hEq ▸ hop)
        rw [hlk, if_neg hba, if_neg hbb] at hgb
        exact h.oppMut x conn p b connB2 pB2 hg hpl hop hgb hplb

theorem inv_attemptMatch {s : ServerState} (fb : Bool) (now : Nat) (h : Inv s) :
    Inv (attemptMatch fb now s) := by
  unfold attemptMatch
  by_cases hlen : s.queue.length < 2
  · rw [if_pos hlen]; exact h
  · rw [if_neg hlen]
    cases hscan : matchScan fb now (sortByMmr s.queue) with
    | none =>
      simp only [hscan]
      refine inv_subQueue ?_ ?_ h
      · intro e he
        exact (sortByMmr_perm s.queue).mem_iff.mp he
      · exact ((sortByMmr_perm s.queue).map QEntry.ws).nodup_iff.mpr h.queueNodup
    | some trip =>
      obtain ⟨a, b, rest⟩ := trip
      simp only [hscan]
      have habr : (a :: b :: rest).Perm s.queue :=
        (matchScan_perm fb now _ a b rest hscan).symm.trans (sortByMmr_perm s.queue)
      have hsubq : ∀ e ∈ a :: b :: rest, e ∈ s.queue := fun e he => habr.subset he
      have hnd : ((a :: b :: rest).map QEntry.ws).Nodup :=
        (habr.map QEntry.ws).nodup_iff.mpr h.queueNodup
      have hab : a.ws ≠ b.ws := by
        simp only [List.map_cons, List.nodup_cons, List.mem_cons] at hnd
        exact fun hEq => hnd.1 (Or.inl hEq)
      have haRest : ∀ e ∈ rest, e.ws ≠ a.ws := by
        intro e he hEq
        simp only [List.map_cons, List.nodup_cons, List.mem_cons] at hnd
        exact hnd.1 (Or.inr (hEq ▸ List.mem_map_of_mem QEntry.ws he))
      have hbRest : ∀ e ∈ rest, e.ws ≠ b.ws := by
        intro e he hEq
        simp only [List.map_cons, List.nodup_cons, List.mem_cons] at hnd
        exact hnd.2.1 (hEq ▸ List.mem_map_of_mem QEntry.ws he)
      have hrestNd : (rest.map QEntry.ws).Nodup := by
        simp only [List.map_cons, List.nodup_cons] at hnd
        exact hnd.2.2
      have hInv1 : Inv { s with queue := rest } :=
        inv_subQueue (fun e he => hsubq e (by simp [he])) hrestNd h
      have hqca := h.queueConn a (hsubq a (by simp))
      have hqcb := h.queueConn b (hsubq b (by simp))
      have hnta : ∀ x connx px, getConn s.conns x = some connx → connx.player = some px →
          px.opponent ≠ some a.ws := by
        intro x connx px hgx hplx hox
        obtain ⟨_, _, hqz⟩ := h.oppTarget x connx px a.ws hgx hplx hox
        exact hqz a (hsubq a (by simp)) rfl
      have hntb : ∀ x connx px, getConn s.conns x = some connx → connx.player = some px →
          px.opponent ≠ some b.ws := by
        intro x connx px hgx hplx hox
        obtain ⟨_, _, hqz⟩ := h.oppTarget x connx px b.ws hgx hplx hox
        exact hqz b (hsubq b (by simp)) rfl
      refine inv_congr ?_ ?_
        (inv_matchPair (s := { s with queue := rest }) hInv1 hab hqca hqcb
          haRest hbRest hnta hntb)
      · rw [safeSend_conns, safeSend_conns]
      · rw [safeSend_queue, safeSend_queue]

theorem inv_closeNotifyS {s1 : ServerState} {c : ConnId} (h : Inv s1)
    (hmark : ∀ conn, getConn s1.conns c = some conn → conn.closeHandled = true) :
    Inv (closeNotifyS s1 c) := by
  unfold closeNotifyS
  split
  · rename_i p hpf
    split
    · rename_i oc hop
      split
      · rename_i hoc
        have hgc : ∃ conn, getConn s1.conns c = some conn ∧ conn.player = some p := by
          cases hg : getConn s1.conns c with
          | none =>
            exfalso
            have hpf2 : (getConn s1.conns c).bind (fun conn => conn.player) = some p := hpf
            rw [hg] at hpf2
            cases hpf2
          | some conn =>
            refine ⟨conn, rfl, ?_⟩
            have hpf2 : (getConn s1.conns c).bind (fun conn => conn.player) = some p := hpf
            rw [hg] at hpf2
            exact hpf2
        obtain ⟨conn, hgcc, hplc⟩ := hgc
        refine inv_clearOpp (inv_congr (safeSend_conns _ _ _) (safeSend_queue _ _ _) h) ?_
        intro x connx px hgx hplx hopx
        rw [safeSend_conns] at hgx
        have hxc : x = c := h.oppUnique x connx px c conn p oc hgx hplx hopx hgcc hplc hop
        subst hxc
        rw [hgcc] at hgx
        cases hgx
        exact hmark conn hgcc
      · exact h
    · exact h
  · exact h

theorem inv_closeNotifyP2 {s1 : ServerState} {c : ConnId} (h : Inv s1)
    (hmark : ∀ conn, getConn s1.conns c = some conn → conn.closeHandled = true) :
    Inv (closeNotifyP2 s1 c) := by
  unfold closeNotifyP2
  split
  · rename_i p hpf
    split
    · rename_i oc hop
      have hgc : ∃ conn, getConn s1.conns c = some conn ∧ conn.player = some p := by
        cases hg : getConn s1.conns c with
        | none =>
          exfalso
          have hpf2 : (getConn s1.conns c).bind (fun conn => conn.player) = some p := hpf
          rw [hg] at hpf2
          cases hpf2
        | some conn =>
          refine ⟨conn, rfl, ?_⟩
          have hpf2 : (getConn s1.conns c).bind (fun conn => conn.player) = some p := hpf
          rw [hg] at hpf2
          exact hpf2
      obtain ⟨conn, hgcc, hplc⟩ := hgc
      refine inv_clearOpp (inv_congr (safeSend_conns _ _ _) (safeSend_queue _ _ _) h) ?_
      intro x connx px hgx hplx hopx
      rw [safeSend_conns] at hgx
      have hxc : x = c := h.oppUnique x connx px c conn p oc hgx hplx hopx hgcc hplc hop
      subst hxc
      rw [hgcc] at hgx
      cases hgx
      exact hmark conn hgcc
    · exact h
  · exact h

theorem inv_filterQueue {s : ServerState} (c : ConnId) (h : Inv s) :
    Inv { s with queue := s.queue.filter (fun e => e.ws != c) } :=
  inv_subQueue (fun e he => List.mem_of_mem_filter he)
    (h.queueNodup.sublist ((s.queue.filter_sublist (p := fun e => e.ws != c)).map QEntry.ws)) h

theorem inv_closeServerJs {s : ServerState} {c : ConnId} (h : Inv s)
    (hmark : ∀ conn, getConn s.conns c = some conn → conn.closeHandled = true) :
    Inv (closeServerJs s c) :=
  inv_closeNotifyS (inv_filterQueue c h) hmark

theorem inv_closePart002 {s : ServerState} {c : ConnId} (h : Inv s)
    (hmark : ∀ conn, getConn s.conns c = some conn → conn.closeHandled = true) :
    Inv (closePart002 s c) :=
  inv_closeNotifyP2 (inv_filterQueue c h) hmark

theorem inv_closeEvent {v : Variant} {s : ServerState} {c : ConnId} (h : Inv s) :
    Inv (closeEvent v s c) := by
  have h2 := inv_markClosed c h
  have hmark : ∀ conn, getConn (markClosed s c).conns c = some conn →
      conn.closeHandled = true := by
    intro conn hg
    rw [show (markClosed s c).conns =
      modConn c (fun conn => { conn with isOpen := false, closeHandled := true }) s.conns
      from rfl, getConn_modConn, if_pos rfl] at hg
    cases hgc : getConn s.conns c with
    | none => rw [hgc] at hg; cases hg
    | some conn0 =>
      rw [hgc] at hg
      simp only [Option.map_some'] at hg
      cases hg
      rfl
  cases v with
  | part002 => exact inv_closePart002 h2 hmark
  | serverJs => exact inv_closeServerJs h2 hmark
  | part000 => exact inv_closeServerJs h2 hmark
  | part001 => exact inv_closeServerJs h2 hmark

theorem inv_handleJoin {s : ServerState} {c : ConnId} (cf fb : Bool)
    (pid : Option String) (mmr : Option JNum) (now : Nat) (h : Inv s)
    (hcs : (getConn s.conns c).isSome) : Inv (handleJoin cf fb s c pid mmr now) := by
  unfold handleJoin
  by_cases hp : (playerOf s c).isSome
  · rw [if_pos hp]
    exact inv_congr (safeSend_conns _ _ _) (safeSend_queue _ _ _) h
  · rw [if_neg hp]
    obtain ⟨conn0, hg0⟩ := Option.isSome_iff_exists.mp hcs
    have hnp : conn0.player = none := by
      cases hpl : conn0.player with
      | none => rfl
      | some q =>
        exfalso
        apply hp
        have : playerOf s c = some q := by
          show (getConn s.conns c).bind (fun conn => conn.player) = some q
          rw [hg0]
          exact hpl
        rw [this]
        rfl
    split
    · rename_i pidStr mv
      split
      · exact inv_congr (safeSend_conns _ _ _) (safeSend_queue _ _ _) h
      · exact inv_attemptMatch fb now (inv_pushPlayer h hg0 hnp pidStr mv now)
    · exact inv_congr (safeSend_conns _ _ _) (safeSend_queue _ _ _) h

theorem serverJs_ok_cases {s s' : ServerState} {c : ConnId} {m : InMsg} {now : Nat}
    (hok : handleMessageServerJs s c m now = .ok s') :
    s' = s ∨ (∃ x msg, s' = safeSend s x msg) ∨
    ∃ pid mmr, m = InMsg.join pid mmr ∧ s' = handleJoin true true s c pid mmr now := by
  cases m <;> simp only [handleMessageServerJs] at hok
  case jsonNull => exact absurd hok (by simp)
  case join pid mmr =>
    injection hok with h2
    exact Or.inr (Or.inr ⟨pid, mmr, rfl, h2.symm⟩)
  case signal kind sdp =>
    repeat' split at hok
    all_goals (injection hok with h2; exact Or.inr (Or.inl ⟨_, _, h2.symm⟩))
  all_goals (injection hok with h2; exact Or.inl h2.symm)

theorem part001_ok_cases {s s' : ServerState} {c : ConnId} {m : InMsg} {now : Nat}
    (hok : handleMessagePart001 s c m now = .ok s') :
    s' = s ∨ (∃ x msg, s' = safeSend s x msg) ∨
    ∃ pid mmr, m = InMsg.join pid mmr ∧ s' = handleJoin true true s c pid mmr now := by
  cases m <;> simp only [handleMessagePart001] at hok
  case join pid mmr =>
    injection hok with h2
    exact Or.inr (Or.inr ⟨pid, mmr, rfl, h2.symm⟩)
  case chat text =>
    repeat' split at hok
    all_goals (injection hok with h2; exact Or.inr (Or.inl ⟨_, _, h2.symm⟩))
  all_goals (first
    | (injection hok with h2; exact Or.inl h2.symm)
    | (injection hok with h2; exact Or.inr (Or.inl ⟨_, _, h2.symm⟩)))

theorem part002_ok_cases {s s' : ServerState} {c : ConnId} {m : InMsg} {now : Nat}
    (hok : handleMessagePart002 s c m now = .ok s') :
    s' = s ∨ (∃ x msg, s' = safeSend s x msg) ∨
    ∃ pid mmr, m = InMsg.join pid mmr ∧ s' = handleJoin false false s c pid mmr now := by
  cases m <;> simp only [handleMessagePart002] at hok
  case jsonNull => exact absurd hok (by simp)
  case join pid mmr =>
    injection hok with h2
    exact Or.inr (Or.inr ⟨pid, mmr, rfl, h2.symm⟩)
  all_goals (repeat' split at hok)
  all_goals (first
    | (injection hok with h2; exact Or.inl h2.symm)
    | (injection hok with h2; exact Or.inr (Or.inl ⟨_, _, h2.symm⟩)))

theorem inv_handleMessage {v : Variant} {s s' : ServerState} {c : ConnId} {m : InMsg}
    {now : Nat} (h : Inv s) (hcs : (getConn s.conns c).isSome)
    (hok : handleMessage v s c m now = .ok s') : Inv s' := by
  have hsend : ∀ x msg, Inv (safeSend s x msg) := fun x msg =>
    inv_congr (safeSend_conns _ _ _) (safeSend_queue _ _ _) h
  cases v with
  | serverJs =>
    rcases serverJs_ok_cases hok with rfl | ⟨x, msg, rfl⟩ | ⟨pid, mmr, _, rfl⟩
    · exact h
    · exact hsend x msg
    · exact inv_handleJoin true true pid mmr now h hcs
  | part000 =>
    rcases serverJs_ok_cases hok with rfl | ⟨x, msg, rfl⟩ | ⟨pid, mmr, _, rfl⟩
    · exact h
    · exact hsend x msg
    · exact inv_handleJoin true true pid mmr now h hcs
  | part001 =>
    rcases part001_ok_cases hok with rfl | ⟨x, msg, rfl⟩ | ⟨pid, mmr, _, rfl⟩
    · exact h
    · exact hsend x msg
    · exact inv_handleJoin true true pid mmr now h hcs
  | part002 =>
    rcases part002_ok_cases hok with rfl | ⟨x, msg, rfl⟩ | ⟨pid, mmr, _, rfl⟩
    · exact h
    · exact hsend x msg
    · exact inv_handleJoin false false pid mmr now h hcs

theorem inv_initState : Inv initState := by
  constructor
  · simp [initState]
  · intro c conn hg; simp [initState, getConn] at hg
  · intro e he; simp [initState] at he
  · simp [initState]
  · intro c conn p b hg; simp [initState, getConn] at hg
  · intro c1 conn1 p1 c2 conn2 p2 b hg; simp [initState, getConn] at hg
  · intro c conn p b connB pB hg; simp [initState, getConn] at hg

theorem inv_step {v : Variant} {s s' : ServerState} (h : Inv s) (hs : Step v s s') :
    Inv s' := by
  cases hs with
  | connect c hfresh => exact inv_addConn c hfresh h
  | message c m now hopen hok =>
    have hcs : (getConn s.conns c).isSome := by
      unfold connIsOpen at hopen
      cases hg : getConn s.conns c with
      | none => rw [hg] at hopen; simp at hopen
      | some conn => simp [hg]
    exact inv_handleMessage h hcs hok
  | socketDown c hx => exact inv_markDown c h
  | close c conn hg hh => exact inv_closeEvent h
  | pong c hx => exact inv_markAlive c h
  | tick => exact inv_tickStep h

/-- Every reachable state satisfies the inductive invariant. -/
theorem inv_reachable {v : Variant} {s : ServerState} (h : Reachable v s) : Inv s := by
  induction h with
  | init => exact inv_initState
  | step _ hs ih => exact inv_step ih hs

/-! ## Spec-side formulations

Definitions following the specification's own words (used on the right of
the claim theorems; the left side always evaluates the code embedding). -/

/-- The spec's "whole elapsed seconds since joined" (meaningful when
`0 < joinedAt ≤ now`). -/
def specWait (now joinedAt : Nat) : Nat := (now - joinedAt) / 1000

/-- The spec's `allowed = BASE_DIFF(200) + min(600, (wait1+wait2) * 10)`. -/
def specAllowed (now : Nat) (a b : QEntry) : Nat :=
  200 + min 600 ((specWait now a.joinedAt + specWait now b.joinedAt) * 10)

/-- The spec's match condition: absolute rating difference at most
`allowed`. -/
def specQual (now : Nat) (a b : QEntry) : Prop :=
  (finVal a.mmr - finVal b.mmr).natAbs ≤ specAllowed now a b

instance (now : Nat) (a b : QEntry) : Decidable (specQual now a b) := by
  unfold specQual; infer_instance

theorem waitSecs_eq_spec (fb : Bool) {now j : Nat} (h0 : 0 < j) (hle : j ≤ now) :
    waitSecs fb now j = ((specWait now j : Nat) : Int) := by
  unfold waitSecs specWait
  rw [if_neg (fun hand => absurd hand.2 (by omega))]
  have h1 : (now : Int) - (j : Int) = ((now - j : Nat) : Int) := by omega
  rw [h1]
  exact (Int.ofNat_fdiv (now - j) 1000).symm

theorem qualifies_eq_spec (fb : Bool) (now : Nat) (a b : QEntry)
    (hfa : ∃ m : Int, a.mmr = JNum.fin m) (hfb : ∃ m : Int, b.mmr = JNum.fin m)
    (hja : 0 < a.joinedAt ∧ a.joinedAt ≤ now) (hjb : 0 < b.joinedAt ∧ b.joinedAt ≤ now) :
    qualifies fb now a b = true ↔ specQual now a b := by
  obtain ⟨ma, hma⟩ := hfa
  obtain ⟨mb, hmb⟩ := hfb
  unfold qualifies allowedFor specQual specAllowed
  rw [hma, hmb, waitSecs_eq_spec fb hja.1 hja.2, waitSecs_eq_spec fb hjb.1 hjb.2]
  simp only [jSub, jAbs, jLeInt, finVal]
  rw [show ((specWait now a.joinedAt : Nat) : Int) + (specWait now b.joinedAt : Nat) =
    (((specWait now a.joinedAt + specWait now b.joinedAt : Nat)) : Int) by push_cast; ring]
  rw [show (((specWait now a.joinedAt + specWait now b.joinedAt : Nat)) : Int) * 10 =
    (((specWait now a.joinedAt + specWait now b.joinedAt) * 10 : Nat) : Int) by push_cast; ring]
  rw [show min (600 : Int) (((specWait now a.joinedAt + specWait now b.joinedAt) * 10 : Nat) : Int)
    = ((min 600 ((specWait now a.joinedAt + specWait now b.joinedAt) * 10) : Nat) : Int) by
      rw [Nat.cast_min]; norm_num]
  rw [show (200 : Int) + ((min 600 ((specWait now a.joinedAt + specWait now b.joinedAt) * 10) : Nat) : Int)
    = ((200 + min 600 ((specWait now a.joinedAt + specWait now b.joinedAt) * 10) : Nat) : Int) by
      push_cast; ring]
  rw [show |ma - mb| = (((ma - mb).natAbs : Nat) : Int) from (Int.abs_eq_natAbs _)]
  rw [show (decide ((((ma - mb).natAbs : Nat) : Int) ≤
    ((200 + min 600 ((specWait now a.joinedAt + specWait now b.joinedAt) * 10) : Nat) : Int)) = true)
    ↔ ((ma - mb).natAbs ≤ 200 + min 600 ((specWait now a.joinedAt + specWait now b.joinedAt) * 10))
    by rw [decide_eq_true_iff]; exact_mod_cast Iff.rfl]

/-- Claim C1.  A pairing pass over a queue of two or more players (whose
ratings are finite and whose join times are sane) first sorts the queue
ascending by rating; the resulting order is scanned over adjacent pairs
left to right with the allowed difference `200 + min(600, (wait1+wait2)*10)`
(waits in whole elapsed seconds); only the first qualifying adjacent pair
is removed (at most one pair per invocation), and if no adjacent pair
qualifies the queue keeps exactly the sorted members - nobody is removed
or added. -/
theorem spec_C1_pairing_pass (fb : Bool) (now : Nat) (s : ServerState)
    (hlen : 2 ≤ s.queue.length)
    (hfin : ∀ e ∈ s.queue, ∃ m : Int, e.mmr = JNum.fin m)
    (hjoin : ∀ e ∈ s.queue, 0 < e.joinedAt ∧ e.joinedAt ≤ now) :
    (sortByMmr s.queue).Perm s.queue ∧
    List.Chain' (fun a b => finVal a.mmr ≤ finVal b.mmr) (sortByMmr s.queue) ∧
    (match matchScan fb now (sortByMmr s.queue) with
     | none =>
       (attemptMatch fb now s).queue = sortByMmr s.queue ∧
       List.Chain' (fun a b => ¬ specQual now a b) (sortByMmr s.queue)
     | some (a, b, rest) =>
       (attemptMatch fb now s).queue = rest ∧
       rest.length + 2 = (sortByMmr s.queue).length ∧
       ∃ i, ∃ hi : i + 1 < (sortByMmr s.queue).length,
         a = (sortByMmr s.queue).get ⟨i, Nat.lt_of_succ_lt hi⟩ ∧
         b = (sortByMmr s.queue).get ⟨i + 1, hi⟩ ∧
         specQual now a b ∧
         List.Chain' (fun x y => ¬ specQual now x y) ((sortByMmr s.queue).take (i + 1)) ∧
         rest = (sortByMmr s.queue).take i ++ (sortByMmr s.queue).drop (i + 2)) := by
  have hperm := sortByMmr_perm s.queue
  have hfin2 : ∀ e ∈ sortByMmr s.queue, ∃ m : Int, e.mmr = JNum.fin m :=
    fun e he => hfin e (hperm.mem_iff.mp he)
  have hjoin2 : ∀ e ∈ sortByMmr s.queue, 0 < e.joinedAt ∧ e.joinedAt ≤ now :=
    fun e he => hjoin e (hperm.mem_iff.mp he)
  refine ⟨hperm, ?_, ?_⟩
  · refine chain'_imp_mem ?_ (sortByMmr_sorted s.queue)
    intro a ha b hb hR
    obtain ⟨ma, hma⟩ := hfin2 a ha
    obtain ⟨mb, hmb⟩ := hfin2 b hb
    rw [hma, hmb]
    simp only [finVal]
    rw [hma, hmb] at hR
    simp only [jLtB, decide_eq_false_iff_not] at hR
    omega
  · have hnotlt : ¬ s.queue.length < 2 := by omega
    cases hscan : matchScan fb now (sortByMmr s.queue) with
    | none =>
      constructor
      · unfold attemptMatch
        rw [if_neg hnotlt]
        simp only [hscan]
      · refine chain'_imp_mem ?_ ((matchScan_none_iff fb now (sortByMmr s.queue)).mp hscan)
        intro a ha b hb hR hspec
        rw [← qualifies_eq_spec fb now a b (hfin2 a ha) (hfin2 b hb) (hjoin2 a ha)
          (hjoin2 b hb)] at hspec
        rw [hR] at hspec
        cases hspec
    | some trip =>
      obtain ⟨a, b, rest⟩ := trip
      have hq3 : (attemptMatch fb now s).queue = rest := by
        unfold attemptMatch
        rw [if_neg hnotlt]
        simp only [hscan]
        rw [safeSend_queue, safeSend_queue, setOpp_queue, setOpp_queue]
      have hlen2 : rest.length + 2 = (sortByMmr s.queue).length := by
        have := (matchScan_perm fb now _ a b rest hscan).length_eq
        simp at this
        omega
      obtain ⟨i, hi, ha, hb, hqual, hchain, hrest⟩ :=
        matchScan_first fb now (sortByMmr s.queue) a b rest hscan
      have haMem : a ∈ sortByMmr s.queue := by rw [ha]; exact List.get_mem _ _ _
      have hbMem : b ∈ sortByMmr s.queue := by rw [hb]; exact List.get_mem _ _ _
      refine ⟨hq3, hlen2, i, hi, ha, hb, ?_, ?_, hrest⟩
      · rw [← qualifies_eq_spec fb now a b (hfin2 a haMem) (hfin2 b hbMem)
          (hjoin2 a haMem) (hjoin2 b hbMem)]
        exact hqual
      · refine chain'_imp_mem ?_ hchain
        intro x hx y hy hR hspec
        have hx2 : x ∈ sortByMmr s.queue := List.take_subset _ _ hx
        have hy2 : y ∈ sortByMmr s.queue := List.take_subset _ _ hy
        rw [← qualifies_eq_spec fb now x y (hfin2 x hx2) (hfin2 y hy2) (hjoin2 x hx2)
          (hjoin2 y hy2)] at hspec
        rw [hR] at hspec
        cases hspec

/-- Concrete queue for the C1 witness: two players whose difference (600)
exceeds the allowed 200 at zero wait, so the pass only re-sorts. -/
def c1demo : ServerState :=
  ⟨[], [⟨1, "A", JNum.fin 1600, 800⟩, ⟨2, "B", JNum.fin 1000, 500⟩], []⟩

theorem spec_C1_pairing_pass_witness :
    2 ≤ c1demo.queue.length ∧
    (attemptMatch true 1000 c1demo).queue = sortByMmr c1demo.queue ∧
    (sortByMmr c1demo.queue).Perm c1demo.queue := by
  have h := spec_C1_pairing_pass true 1000 c1demo (by decide)
    (by
      intro e he
      rcases List.mem_cons.mp he with rfl | he2
      · exact ⟨1600, rfl⟩
      · rcases List.mem_cons.mp he2 with rfl | h3
        · exact ⟨1000, rfl⟩
        · cases h3)
    (by decide)
  have hscan : matchScan true 1000 (sortByMmr c1demo.queue) = none := by decide
  have h3 := h.2.2
  rw [hscan] at h3
  exact ⟨by decide, h3.1, h.1⟩

/-! ## C7: match_start roles -/

theorem safeSend_of_open {s : ServerState} {c : ConnId} (m : OutMsg)
    (h : connIsOpen s c = true) :
    safeSend s c m = { s with outbox := s.outbox ++ [(c, m)] } := by
  unfold safeSend
  rw [if_pos h]

theorem safeSend_outbox_of_open {s : ServerState} {c : ConnId} (m : OutMsg)
    (h : connIsOpen s c = true) :
    (safeSend s c m).outbox = s.outbox ++ [(c, m)] := by
  unfold safeSend
  rw [if_pos h]

theorem connIsOpen_setOpp (s : ServerState) (x : ConnId) (o : Option ConnId) (y : ConnId) :
    connIsOpen (setOpp s x o) y = connIsOpen s y := by
  unfold connIsOpen
  rw [getConn_setOpp]
  by_cases h : y = x
  · rw [if_pos h]
    cases getConn s.conns y <;> rfl
  · rw [if_neg h]

theorem connIsOpen_congr {s s' : ServerState} (h : s'.conns = s.conns) (c : ConnId) :
    connIsOpen s' c = connIsOpen s c := by
  unfold connIsOpen
  rw [h]

/-- Claim C7.  When a pairing pass matches the adjacent pair `(a, b)` of the
rating-sorted queue (`a` at the lower index, i.e. the rating-sorted-earlier
member) and both sockets are open, `a` receives `match_start` with role
"host" carrying `b`'s identifier, and `b` receives `match_start` with role
"client" carrying `a`'s identifier - and these are the only two messages
produced by the pass. -/
theorem spec_C7_match_roles (fb : Bool) (now : Nat) (s : ServerState)
    (a b : QEntry) (rest : List QEntry)
    (hlen : 2 ≤ s.queue.length)
    (hscan : matchScan fb now (sortByMmr s.queue) = some (a, b, rest))
    (hoa : connIsOpen s a.ws = true) (hob : connIsOpen s b.ws = true) :
    (attemptMatch fb now s).outbox =
      s.outbox ++ [(a.ws, OutMsg.matchStart "host" b.player_id),
        (b.ws, OutMsg.matchStart "client" a.player_id)] ∧
    ∃ i, ∃ hi : i + 1 < (sortByMmr s.queue).length,
      a = (sortByMmr s.queue).get ⟨i, Nat.lt_of_succ_lt hi⟩ ∧
      b = (sortByMmr s.queue).get ⟨i + 1, hi⟩ := by
  obtain ⟨i, hi, ha, hb, _, _, _⟩ := matchScan_first fb now _ a b rest hscan
  refine ⟨?_, i, hi, ha, hb⟩
  have hnotlt : ¬ s.queue.length < 2 := by omega
  unfold attemptMatch
  rw [if_neg hnotlt]
  simp only [hscan]
  have h1 : connIsOpen
      (setOpp (setOpp { s with queue := rest } a.ws (some b.ws)) b.ws (some a.ws)) a.ws
      = true := by
    rw [connIsOpen_setOpp, connIsOpen_setOpp]
    exact hoa
  have h2 : connIsOpen
      (safeSend (setOpp (setOpp { s with queue := rest } a.ws (some b.ws)) b.ws (some a.ws))
        a.ws (OutMsg.matchStart "host" b.player_id)) b.ws = true := by
    rw [connIsOpen_congr (safeSend_conns _ _ _), connIsOpen_setOpp, connIsOpen_setOpp]
    exact hob
  rw [safeSend_outbox_of_open _ h2, safeSend_outbox_of_open _ h1]
  simp [setOpp_outbox]

/-- Concrete C7 scenario state: P1 (rating 1000) and P2 (rating 1190) both
queued on open connections (the state reached mid-join, just before the
admission-triggered pairing pass runs). -/
def c7state : ServerState :=
  ⟨[(1, ⟨true, true, false, some ⟨"P1", JNum.fin 1000, 100, none⟩⟩),
    (2, ⟨true, true, false, some ⟨"P2", JNum.fin 1190, 100, none⟩⟩)],
   [⟨1, "P1", JNum.fin 1000, 100⟩, ⟨2, "P2", JNum.fin 1190, 100⟩], []⟩

theorem spec_C7_match_roles_witness :
    (runD Variant.serverJs
      [Event.connect 1, Event.message 1 (InMsg.join (some "P1") (some (JNum.fin 1000))) 100,
       Event.connect 2, Event.message 2 (InMsg.join (some "P2") (some (JNum.fin 1190))) 100]).outbox
      = [(1, OutMsg.matchStart "host" "P2"), (2, OutMsg.matchStart "client" "P1")] ∧
    ((attemptMatch true 100 c7state).outbox =
      c7state.outbox ++ [(1, OutMsg.matchStart "host" "P2"), (2, OutMsg.matchStart "client" "P1")] ∧
     ∃ i, ∃ hi : i + 1 < (sortByMmr c7state.queue).length,
       (⟨1, "P1", JNum.fin 1000, 100⟩ : QEntry) =
         (sortByMmr c7state.queue).get ⟨i, Nat.lt_of_succ_lt hi⟩ ∧
       (⟨2, "P2", JNum.fin 1190, 100⟩ : QEntry) = (sortByMmr c7state.queue).get ⟨i + 1, hi⟩) :=
  ⟨by decide,
   spec_C7_match_roles true 100 c7state ⟨1, "P1", JNum.fin 1000, 100⟩
     ⟨2, "P2", JNum.fin 1190, 100⟩ [] (by decide) (by decide) (by decide) (by decide)⟩

/-! ## C2: join_queue admission -/

/-- Claim C2, counterexample.  The claim says a join with an empty identifier
is rejected with a validation error and no Player created.  On the
server.js variant (reachable state: one fresh open connection), a
`join_queue` with `player_id = ""` and finite rating is *admitted*: the
handler takes the admission path, the queue grows by the new entry, and no
message of any kind is emitted (`typeof "" === 'string'` passes the
validation). -/
theorem spec_C2_join_cex :
    Reachable Variant.serverJs ⟨[(1, ⟨true, true, false, none⟩)], [], []⟩ ∧
    handleMessageServerJs ⟨[(1, ⟨true, true, false, none⟩)], [], []⟩ 1
        (InMsg.join (some "") (some (JNum.fin 1000))) 1000 =
      .ok (attemptMatch true 1000
        (pushPlayer ⟨[(1, ⟨true, true, false, none⟩)], [], []⟩ 1 "" (JNum.fin 1000) 1000)) ∧
    (attemptMatch true 1000
        (pushPlayer ⟨[(1, ⟨true, true, false, none⟩)], [], []⟩ 1 "" (JNum.fin 1000) 1000)).queue
      = [⟨1, "", JNum.fin 1000, 1000⟩] ∧
    (attemptMatch true 1000
        (pushPlayer ⟨[(1, ⟨true, true, false, none⟩)], [], []⟩ 1 "" (JNum.fin 1000) 1000)).outbox
      = [] ∧
    playerOf (attemptMatch true 1000
        (pushPlayer ⟨[(1, ⟨true, true, false, none⟩)], [], []⟩ 1 "" (JNum.fin 1000) 1000)) 1
      = some ⟨"", JNum.fin 1000, 1000, none⟩ :=
  ⟨reachable_of_run
    (show runEvents Variant.serverJs [Event.connect 1] =
      some ⟨[(1, ⟨true, true, false, none⟩)], [], []⟩ from rfl),
   by rfl, by rfl, by rfl, by rfl⟩

/-- Claim C2, amended.  On the server.js variant, a `join_queue` request is
rejected with a validation error (and the queue and connection store left
unchanged) exactly when the connection already has a player, or the
supplied identifier is not a string, or the supplied rating is not a
number or not finite.  Otherwise - the empty identifier included - a
player is created, appended to the queue, and a pairing pass runs
synchronously. -/
theorem spec_C2_join_validation (s : ServerState) (c : ConnId) (pid : Option String)
    (mmr : Option JNum) (now : Nat) :
    ((playerOf s c).isSome = true →
      handleMessageServerJs s c (InMsg.join pid mmr) now =
        .ok (safeSend s c (.errorMsg "already joined")) ∧
      (safeSend s c (.errorMsg "already joined")).queue = s.queue ∧
      (safeSend s c (.errorMsg "already joined")).conns = s.conns) ∧
    (playerOf s c = none → pid = none ∨ mmr = none →
      handleMessageServerJs s c (InMsg.join pid mmr) now =
        .ok (safeSend s c (.errorMsg "invalid join_queue payload"))) ∧
    (∀ mv, playerOf s c = none → mmr = some mv → jIsFinite mv = false →
      handleMessageServerJs s c (InMsg.join pid mmr) now =
        .ok (safeSend s c (.errorMsg "invalid join_queue payload"))) ∧
    (∀ pidStr mv, playerOf s c = none → pid = some pidStr → mmr = some mv →
      jIsFinite mv = true →
      handleMessageServerJs s c (InMsg.join pid mmr) now =
        .ok (attemptMatch true now (pushPlayer s c pidStr mv now)) ∧
      (pushPlayer s c pidStr mv now).queue = s.queue ++ [⟨c, pidStr, mv, now⟩]) := by
  refine ⟨?_, ?_, ?_, ?_⟩
  · intro hsome
    refine ⟨?_, safeSend_queue _ _ _, safeSend_conns _ _ _⟩
    show Except.ok (handleJoin true true s c pid mmr now) = _
    unfold handleJoin
    rw [if_pos hsome]
  · intro hnone hdis
    show Except.ok (handleJoin true true s c pid mmr now) = _
    unfold handleJoin
    rw [if_neg (by rw [hnone]; simp)]
    rcases hdis with rfl | rfl
    · rfl
    · cases pid <;> rfl
  · intro mv hnone hm hf
    subst hm
    show Except.ok (handleJoin true true s c pid (some mv) now) = _
    unfold handleJoin
    rw [if_neg (by rw [hnone]; simp)]
    cases pid with
    | none => rfl
    | some pidStr =>
      simp only
      rw [if_pos ⟨trivial, hf⟩]
  · intro pidStr mv hnone hp hm hf
    subst hp
    subst hm
    refine ⟨?_, rfl⟩
    show Except.ok (handleJoin true true s c (some pidStr) (some mv) now) = _
    unfold handleJoin
    rw [if_neg (by rw [hnone]; simp)]
    simp only
    rw [if_neg (fun hand => by rw [hf] at hand; exact absurd hand.2 (by simp))]

theorem spec_C2_join_validation_witness :
    playerOf (⟨[(1, ⟨true, true, false, none⟩)], [], []⟩ : ServerState) 1 = none ∧
    jIsFinite (JNum.fin 1000) = true ∧
    (handleMessageServerJs ⟨[(1, ⟨true, true, false, none⟩)], [], []⟩ 1
        (InMsg.join (some "") (some (JNum.fin 1000))) 7 =
      .ok (attemptMatch true 7
        (pushPlayer ⟨[(1, ⟨true, true, false, none⟩)], [], []⟩ 1 "" (JNum.fin 1000) 7)) ∧
     (pushPlayer ⟨[(1, ⟨true, true, false, none⟩)], [], []⟩ 1 "" (JNum.fin 1000) 7).queue =
       [⟨1, "", JNum.fin 1000, 7⟩]) :=
  ⟨by rfl, by rfl,
   (spec_C2_join_validation ⟨[(1, ⟨true, true, false, none⟩)], [], []⟩ 1
     (some "") (some (JNum.fin 1000)) 7).2.2.2 "" (JNum.fin 1000) (by rfl) rfl rfl (by rfl)⟩

/-! ## C6: rejoin on the surviving connection -/

/-- Events leading to the C6 scenario: P1 and P2 matched, then P2's
connection closes while P1's socket stays open (so P1's back-reference is
cleared and P1 is notified). -/
def c6evs : List Event :=
  [Event.connect 1, Event.message 1 (InMsg.join (some "P1") (some (JNum.fin 1000))) 100,
   Event.connect 2, Event.message 2 (InMsg.join (some "P2") (some (JNum.fin 1100))) 100,
   Event.close 2]

/-- Claim C6, counterexample.  After the opponent disconnects, the surviving
player's connection still has its `player` closure variable set (only the
`opponent` field was cleared), so a fresh `join_queue` on that same
still-open connection is answered with the duplicate-join error
`already joined` and the queue stays empty - the claim says it would be
admitted and appended. -/
theorem spec_C6_rejoin_cex :
    Reachable Variant.serverJs (runD Variant.serverJs c6evs) ∧
    connIsOpen (runD Variant.serverJs c6evs) 1 = true ∧
    playerOf (runD Variant.serverJs c6evs) 1 = some ⟨"P1", JNum.fin 1000, 100, none⟩ ∧
    handleMessageServerJs (runD Variant.serverJs c6evs) 1
        (InMsg.join (some "P1") (some (JNum.fin 1000))) 900 =
      .ok (safeSend (runD Variant.serverJs c6evs) 1 (.errorMsg "already joined")) ∧
    (safeSend (runD Variant.serverJs c6evs) 1 (.errorMsg "already joined")).queue = [] :=
  ⟨reachable_of_run
    (show runEvents Variant.serverJs c6evs = some (runD Variant.serverJs c6evs) from rfl),
   by rfl, by rfl, by rfl, by rfl⟩

/-- Claim C6, amended.  A fresh `join_queue` on any connection whose
`player` closure variable is already set - in particular a surviving
player whose opponent disconnected - is rejected as a duplicate join
(`already joined`), leaving queue and connection store unchanged; to
re-enter matchmaking the surviving player must reconnect on a new
connection. -/
theorem spec_C6_rejoin_rejected (s : ServerState) (c : ConnId) (pid : Option String)
    (mmr : Option JNum) (now : Nat) (p : PlayerData) (hp : playerOf s c = some p) :
    handleMessageServerJs s c (InMsg.join pid mmr) now =
      .ok (safeSend s c (.errorMsg "already joined")) ∧
    (safeSend s c (.errorMsg "already joined")).queue = s.queue ∧
    (safeSend s c (.errorMsg "already joined")).conns = s.conns := by
  refine ⟨?_, safeSend_queue _ _ _, safeSend_conns _ _ _⟩
  show Except.ok (handleJoin true true s c pid mmr now) = _
  unfold handleJoin
  rw [if_pos (by rw [hp]; rfl)]

theorem spec_C6_rejoin_rejected_witness :
    playerOf (runD Variant.serverJs c6evs) 1 = some ⟨"P1", JNum.fin 1000, 100, none⟩ ∧
    handleMessageServerJs (runD Variant.serverJs c6evs) 1
        (InMsg.join (some "Q") (some (JNum.fin 1500))) 901 =
      .ok (safeSend (runD Variant.serverJs c6evs) 1 (.errorMsg "already joined")) :=
  ⟨by rfl,
   (spec_C6_rejoin_rejected (runD Variant.serverJs c6evs) 1 (some "Q")
     (some (JNum.fin 1500)) 901 ⟨"P1", JNum.fin 1000, 100, none⟩ (by rfl)).1⟩

/-! ## C8: unrecognized kinds and malformed input -/

/-- Claim C8, counterexample.  The claim says every message of unrecognized
kind is answered with an error notification.  The server.js message
handler has no catch-all arm: a parsed object whose `type` is an
unrecognized string (here `"frobnicate"`, on a reachable one-connection
state) falls through the whole `if` chain - the handler returns with the
state completely unchanged and nothing is sent to anybody. -/
theorem spec_C8_unknown_cex :
    Reachable Variant.serverJs ⟨[(1, ⟨true, true, false, none⟩)], [], []⟩ ∧
    handleMessageServerJs ⟨[(1, ⟨true, true, false, none⟩)], [], []⟩ 1
        (InMsg.other "frobnicate") 5 =
      .ok ⟨[(1, ⟨true, true, false, none⟩)], [], []⟩ :=
  ⟨reachable_of_run
    (show runEvents Variant.serverJs [Event.connect 1] =
      some ⟨[(1, ⟨true, true, false, none⟩)], [], []⟩ from rfl),
   by rfl⟩

/-- Claim C8, amended.  Unrecognized kinds: the part_001 and part_002
variants answer with an `unknown message type` error and change nothing
else, while the server.js (and part_000) variant silently ignores them.
Malformed input: unparseable JSON is caught everywhere (part_002 replies
`Invalid JSON`; server.js and part_001 drop it silently) and never crashes;
but a frame `"null"` - valid JSON parsing to `null` - makes the server.js
and part_002 handlers throw an uncaught TypeError on the `msg.type`
property access (crashing the event loop), and only part_001's
`!msg || typeof msg.type !== "string"` guard turns it into a
`invalid message format` validation error. -/
theorem spec_C8_unknown_malformed (s : ServerState) (c : ConnId) (k : String) (now : Nat) :
    (k ≠ "" → handleMessagePart002 s c (InMsg.other k) now =
      .ok (safeSend s c (.errorMsg "Unknown message type"))) ∧
    handleMessagePart001 s c (InMsg.other k) now =
      .ok (safeSend s c (.errorMsg "unknown message type")) ∧
    handleMessageServerJs s c (InMsg.other k) now = .ok s ∧
    (handleMessageServerJs s c InMsg.badJson now = .ok s ∧
     handleMessagePart001 s c InMsg.badJson now = .ok s ∧
     handleMessagePart002 s c InMsg.badJson now =
       .ok (safeSend s c (.errorMsg "Invalid JSON"))) ∧
    (handleMessageServerJs s c InMsg.jsonNull now = .error () ∧
     handleMessagePart002 s c InMsg.jsonNull now = .error () ∧
     handleMessagePart001 s c InMsg.jsonNull now =
       .ok (safeSend s c (.errorMsg "invalid message format"))) := by
  refine ⟨?_, rfl, rfl, ⟨rfl, rfl, rfl⟩, ⟨rfl, rfl, rfl⟩⟩
  intro hk
  show (if k = "" then Except.ok s
    else Except.ok (safeSend s c (OutMsg.errorMsg "Unknown message type"))) = _
  rw [if_neg hk]

theorem spec_C8_unknown_malformed_witness :
    ("zzz" : String) ≠ "" ∧
    handleMessagePart002 initState 3 (InMsg.other "zzz") 0 =
      .ok (safeSend initState 3 (.errorMsg "Unknown message type")) :=
  ⟨by decide, (spec_C8_unknown_malformed initState 3 "zzz" 0).1 (by decide)⟩

/-! ## C9: the liveness monitor -/

/-- Claim C9.  Under the heartbeat step (`tickStep`, the `setInterval` sweep)
and `markAlive` (the `pong` listener): a connection that never answers a
probe has its socket terminated after at most two sweeps, and a connection
that answers every probe (a pong after each sweep) keeps its socket state
forever and is never terminated by the monitor. -/
theorem spec_C9_liveness (s : ServerState) (c : ConnId) (conn : Conn)
    (hg : getConn s.conns c = some conn) :
    (conn.closeHandled = false →
      ∃ conn2, getConn (tickStep (tickStep s)).conns c = some conn2 ∧ conn2.isOpen = false) ∧
    (conn.isAlive = true →
      ∀ n, ∃ conn2,
        getConn ((fun st => markAlive (tickStep st) c)^[n] s).conns c = some conn2 ∧
        conn2.isOpen = conn.isOpen ∧ conn2.isAlive = true ∧
        conn2.closeHandled = conn.closeHandled) := by
  have htick : ∀ (st : ServerState) (x : ConnId),
      getConn (tickStep st).conns x = (getConn st.conns x).map tickConn := by
    intro st x
    exact getConn_mapConns tickConn st.conns x
  have halive : ∀ (st : ServerState) (x : ConnId),
      getConn (markAlive st c).conns x =
        if x = c then (getConn st.conns x).map (fun cn => { cn with isAlive := true })
        else getConn st.conns x := by
    intro st x
    exact getConn_modConn c x _ st.conns
  constructor
  · intro hch
    refine ⟨tickConn (tickConn conn), ?_, ?_⟩
    · rw [htick, htick, hg]; rfl
    · by_cases hal : conn.isAlive = false <;> simp [tickConn, hch, hal]
  · intro hal n
    induction n with
    | zero => exact ⟨conn, hg, rfl, hal, rfl⟩
    | succ n ih =>
      obtain ⟨conn2, hg2, hopen2, hal2, hch2⟩ := ih
      rw [Function.iterate_succ_apply']
      refine ⟨{ tickConn conn2 with isAlive := true }, ?_, ?_, rfl, ?_⟩
      · rw [halive, if_pos rfl, htick, hg2]
        rfl
      · rw [← hopen2]
        show (tickConn conn2).isOpen = conn2.isOpen
        by_cases hch : conn2.closeHandled = true <;> simp [tickConn, hch, hal2]
      · rw [← hch2]
        show (tickConn conn2).closeHandled = conn2.closeHandled
        by_cases hch : conn2.closeHandled = true <;> simp [tickConn, hch, hal2]

theorem spec_C9_liveness_witness :
    (⟨true, true, false, none⟩ : Conn).closeHandled = false ∧
    (∃ conn2, getConn
        (tickStep (tickStep (⟨[(1, ⟨true, true, false, none⟩)], [], []⟩ : ServerState))).conns 1 =
        some conn2 ∧ conn2.isOpen = false) :=
  ⟨rfl,
   (spec_C9_liveness ⟨[(1, ⟨true, true, false, none⟩)], [], []⟩ 1 ⟨true, true, false, none⟩
     (by rfl)).1 rfl⟩

/-! ## C10: the conditional close teardown -/

/-- Claim C10.  In the server.js, part_000 and part_001 variants, when a
paired player's connection closes while the surviving opponent's socket is
not OPEN, the close handler skips the teardown branch entirely: the
survivor's whole connection record - including its `opponent` reference,
still pointing at the disconnected player - is untouched, and no
`opponent_disconnected` message is attempted (the outbox is unchanged).
Only the queue filter runs. -/
theorem spec_C10_close_skip (v : Variant)
    (hv : v = Variant.serverJs ∨ v = Variant.part000 ∨ v = Variant.part001)
    (s : ServerState) (c oc : ConnId) (conn : Conn) (p : PlayerData)
    (hg : getConn s.conns c = some conn) (hpl : conn.player = some p)
    (hop : p.opponent = some oc) (hco : oc ≠ c)
    (oconn : Conn) (hgo : getConn s.conns oc = some oconn) (hnopen : oconn.isOpen = false) :
    (closeEvent v s c).outbox = s.outbox ∧
    getConn (closeEvent v s c).conns oc = some oconn ∧
    (closeEvent v s c).queue = s.queue.filter (fun e => e.ws != c) := by
  have hveq : closeEvent v s c = closeServerJs (markClosed s c) c := by
    rcases hv with rfl | rfl | rfl <;> rfl
  rw [hveq]
  have hgc1 : getConn (markClosed s c).conns c =
      some { conn with isOpen := false, closeHandled := true } := by
    rw [show (markClosed s c).conns =
      modConn c (fun cn => { cn with isOpen := false, closeHandled := true }) s.conns
      from rfl, getConn_modConn, if_pos rfl, hg]
    rfl
  have hgo1 : getConn (markClosed s c).conns oc = some oconn := by
    rw [show (markClosed s c).conns =
      modConn c (fun cn => { cn with isOpen := false, closeHandled := true }) s.conns
      from rfl, getConn_modConn, if_neg hco]
    exact hgo
  unfold closeServerJs
  set s1 : ServerState :=
    { markClosed s c with queue := (markClosed s c).queue.filter (fun e => e.ws != c) }
    with hs1
  have hpf : playerOf s1 c = some p := by
    show ((getConn (markClosed s c).conns c).bind (fun cn => cn.player)) = some p
    rw [hgc1]
    exact hpl
  have hoc : connIsOpen s1 oc = false := by
    show ((getConn (markClosed s c).conns oc).map (fun cn => cn.isOpen)).getD false = false
    rw [hgo1]
    exact hnopen
  unfold closeNotifyS
  rw [hpf]
  simp only [hop]
  rw [if_neg (by rw [hoc]; simp)]
  refine ⟨rfl, ?_, rfl⟩
  show getConn (markClosed s c).conns oc = some oconn
  exact hgo1

/-- Events reaching the C10 scenario on server.js: two matched players,
the survivor's socket goes down first, then the paired player's close
event fires - the survivor's dangling back-reference remains. -/
def c10evs : List Event :=
  [Event.connect 1, Event.message 1 (InMsg.join (some "P1") (some (JNum.fin 1000))) 100,
   Event.connect 2, Event.message 2 (InMsg.join (some "P2") (some (JNum.fin 1100))) 100,
   Event.socketDown 1]

theorem spec_C10_close_skip_witness :
    ((closeEvent Variant.serverJs (runD Variant.serverJs c10evs) 2).outbox
       = (runD Variant.serverJs c10evs).outbox ∧
     getConn (closeEvent Variant.serverJs (runD Variant.serverJs c10evs) 2).conns 1 =
       some ⟨false, true, false, some ⟨"P1", JNum.fin 1000, 100, some 2⟩⟩ ∧
     (closeEvent Variant.serverJs (runD Variant.serverJs c10evs) 2).queue =
       (runD Variant.serverJs c10evs).queue.filter (fun e => e.ws != 2)) :=
  spec_C10_close_skip Variant.serverJs (Or.inl rfl) (runD Variant.serverJs c10evs) 2 1
    ⟨true, true, false, some ⟨"P2", JNum.fin 1100, 100, some 1⟩⟩
    ⟨"P2", JNum.fin 1100, 100, some 1⟩ (by rfl) rfl rfl (by decide)
    ⟨false, true, false, some ⟨"P1", JNum.fin 1000, 100, some 2⟩⟩ (by rfl) rfl

/-! ## C5: disconnect handling -/

/-- Two matched players on server.js. -/
def pairedEvs : List Event :=
  [Event.connect 1, Event.message 1 (InMsg.join (some "P1") (some (JNum.fin 1000))) 100,
   Event.connect 2, Event.message 2 (InMsg.join (some "P2") (some (JNum.fin 1100))) 100]

/-- C5 counterexample trace: the survivor's socket leaves OPEN before the
paired player's close event fires. -/
def c5evs : List Event := pairedEvs ++ [Event.socketDown 1, Event.close 2]

/-- Claim C5, counterexample.  The claim says that whenever a paired player's
connection closes, its opponent receives `opponent_disconnected` and the
opponent's back-reference becomes absent.  On server.js, when the
surviving opponent's socket is not OPEN at close time (reachable trace:
match, survivor's socket goes down, partner's close event fires), the
close handler skips the whole branch: P1 still references P2 and no
`opponent_disconnected` was ever produced. -/
theorem spec_C5_disconnect_cex :
    Reachable Variant.serverJs (runD Variant.serverJs c5evs) ∧
    (∃ conn2, getConn (runD Variant.serverJs c5evs).conns 2 = some conn2 ∧
      conn2.closeHandled = true ∧ ∃ p2, conn2.player = some p2 ∧ p2.opponent = some 1) ∧
    playerOf (runD Variant.serverJs c5evs) 1 = some ⟨"P1", JNum.fin 1000, 100, some 2⟩ ∧
    (runD Variant.serverJs c5evs).outbox =
      [(1, OutMsg.matchStart "host" "P2"), (2, OutMsg.matchStart "client" "P1")] :=
  ⟨reachable_of_run
    (show runEvents Variant.serverJs c5evs = some (runD Variant.serverJs c5evs) from rfl),
   ⟨⟨false, true, true, some ⟨"P2", JNum.fin 1100, 100, some 1⟩⟩, by rfl, rfl,
    ⟨"P2", JNum.fin 1100, 100, some 1⟩, rfl, rfl⟩, by rfl, by rfl⟩

/-- Claim C5, amended.  On a connection-closed notification in the
server.js / part_000 / part_001 variants: the closing player is removed
from the waiting queue in every case; if it is paired *and the opponent's
socket is still OPEN*, the opponent receives `opponent_disconnected`, the
opponent's back-reference becomes absent, and the opponent is not
(re-)added to the waiting queue.  (When the opponent's socket is not open
the branch is skipped entirely - claim C10; part_002 clears the reference
unconditionally but can then deliver nothing either.) -/
theorem spec_C5_disconnect (v : Variant)
    (hv : v = Variant.serverJs ∨ v = Variant.part000 ∨ v = Variant.part001)
    (s : ServerState) (c : ConnId) (conn : Conn) (p : PlayerData)
    (hg : getConn s.conns c = some conn) (hpl : conn.player = some p) :
    (p.opponent = none →
      (closeEvent v s c).queue = s.queue.filter (fun e => e.ws != c) ∧
      (closeEvent v s c).outbox = s.outbox) ∧
    (∀ oc oconn po, p.opponent = some oc → oc ≠ c →
      getConn s.conns oc = some oconn → oconn.isOpen = true → oconn.player = some po →
      (∀ e ∈ s.queue, e.ws ≠ oc) →
      (closeEvent v s c).queue = s.queue.filter (fun e => e.ws != c) ∧
      (closeEvent v s c).outbox = s.outbox ++ [(oc, OutMsg.opponentDisconnected)] ∧
      playerOf (closeEvent v s c) oc = some { po with opponent := none } ∧
      (∀ e ∈ (closeEvent v s c).queue, e.ws ≠ oc)) := by
  have hveq : closeEvent v s c = closeServerJs (markClosed s c) c := by
    rcases hv with rfl | rfl | rfl <;> rfl
  have hgc1 : getConn (markClosed s c).conns c =
      some { conn with isOpen := false, closeHandled := true } := by
    rw [show (markClosed s c).conns =
      modConn c (fun cn => { cn with isOpen := false, closeHandled := true }) s.conns
      from rfl, getConn_modConn, if_pos rfl, hg]
    rfl
  constructor
  · intro hop
    rw [hveq]
    unfold closeServerJs
    have hpf : playerOf
        ({ markClosed s c with
          queue := (markClosed s c).queue.filter (fun e => e.ws != c) } : ServerState) c
        = some p := by
      show ((getConn (markClosed s c).conns c).bind (fun cn => cn.player)) = some p
      rw [hgc1]
      exact hpl
    unfold closeNotifyS
    rw [hpf]
    simp only [hop]
    exact ⟨rfl, rfl⟩
  · intro oc oconn po hop hco hgo hoco hplo hqz
    have hgo1 : getConn (markClosed s c).conns oc = some oconn := by
      rw [show (markClosed s c).conns =
        modConn c (fun cn => { cn with isOpen := false, closeHandled := true }) s.conns
        from rfl, getConn_modConn, if_neg hco]
      exact hgo
    rw [hveq]
    unfold closeServerJs
    have hpf : playerOf
        ({ markClosed s c with
          queue := (markClosed s c).queue.filter (fun e => e.ws != c) } : ServerState) c
        = some p := by
      show ((getConn (markClosed s c).conns c).bind (fun cn => cn.player)) = some p
      rw [hgc1]
      exact hpl
    have hoc : connIsOpen
        ({ markClosed s c with
          queue := (markClosed s c).queue.filter (fun e => e.ws != c) } : ServerState) oc
        = true := by
      show ((getConn (markClosed s c).conns oc).map (fun cn => cn.isOpen)).getD false = true
      rw [hgo1]
      exact hoco
    unfold closeNotifyS
    rw [hpf]
    simp only [hop]
    rw [if_pos hoc]
    refine ⟨?_, ?_, ?_, ?_⟩
    · rw [setOpp_queue, safeSend_queue]
      rfl
    · rw [setOpp_outbox, safeSend_outbox_of_open _ hoc]
      rfl
    · show ((getConn (setOpp _ oc none).conns oc).bind (fun cn => cn.player)) = _
      rw [getConn_setOpp, if_pos rfl, safeSend_conns]
      rw [hgo1]
      simp [hplo]
    · intro e he
      rw [setOpp_queue, safeSend_queue] at he
      exact hqz e (List.mem_of_mem_filter he)

theorem spec_C5_disconnect_witness :
    ((closeEvent Variant.serverJs (runD Variant.serverJs pairedEvs) 2).queue = [] ∧
     (closeEvent Variant.serverJs (runD Variant.serverJs pairedEvs) 2).outbox =
       (runD Variant.serverJs pairedEvs).outbox ++ [(1, OutMsg.opponentDisconnected)] ∧
     playerOf (closeEvent Variant.serverJs (runD Variant.serverJs pairedEvs) 2) 1 =
       some ⟨"P1", JNum.fin 1000, 100, none⟩ ∧
     (∀ e ∈ (closeEvent Variant.serverJs (runD Variant.serverJs pairedEvs) 2).queue,
       e.ws ≠ 1)) :=
  (spec_C5_disconnect Variant.serverJs (Or.inl rfl) (runD Variant.serverJs pairedEvs) 2
    ⟨true, true, false, some ⟨"P2", JNum.fin 1100, 100, some 1⟩⟩
    ⟨"P2", JNum.fin 1100, 100, some 1⟩ (by rfl) rfl).2 1
    ⟨true, true, false, some ⟨"P1", JNum.fin 1000, 100, some 2⟩⟩
    ⟨"P1", JNum.fin 1000, 100, some 2⟩ rfl (by decide) (by rfl) rfl rfl
    (by intro e he; cases he)

/-! ## C4: relay with no live opponent -/

/-- Reaches a part_002 state where connection 1 is paired with connection
2 whose socket has left OPEN (close event still pending). -/
def c4evs : List Event :=
  [Event.connect 1, Event.message 1 (InMsg.join (some "A") (some (JNum.fin 1000))) 100,
   Event.connect 2, Event.message 2 (InMsg.join (some "B") (some (JNum.fin 1100))) 100,
   Event.socketDown 2]

/-- Claim C4, counterexample.  The claim says a relay-class message whose
opponent's connection is no longer open produces an error notification to
the sender.  In part_002's chat handler the guard is only
`!player || !player.opponent`: on a reachable state where the sender is
paired but the opponent's socket is not open, a chat message leaves the
state completely unchanged - the forward is swallowed by `safeSend` and
the sender is told nothing (a silent drop). -/
theorem spec_C4_relay_cex :
    Reachable Variant.part002 (runD Variant.part002 c4evs) ∧
    playerOf (runD Variant.part002 c4evs) 1 = some ⟨"A", JNum.fin 1000, 100, some 2⟩ ∧
    connIsOpen (runD Variant.part002 c4evs) 2 = false ∧
    handleMessagePart002 (runD Variant.part002 c4evs) 1 (InMsg.chat (some "hi")) 999 =
      .ok (runD Variant.part002 c4evs) :=
  ⟨reachable_of_run
    (show runEvents Variant.part002 c4evs = some (runD Variant.part002 c4evs) from rfl),
   by rfl, by rfl, by rfl⟩

/-- Claim C4, amended.  For a chat message from a player `c`: the part_001
variant notifies the sender (`no opponent to forward chat to`) whenever
the opponent reference is absent *or* the opponent's socket is not open,
and nothing is sent to any other connection; server.js behaves the same
way for the signaling kinds.  The part_002 variant sends its error
(`No opponent to forward chat`) only when the opponent reference is
absent - when the reference is present but the opponent's socket is not
open, the message is dropped silently with the state unchanged. -/
theorem spec_C4_relay_errors (s : ServerState) (c : ConnId) (t : String) (now : Nat) :
    ((playerOf s c = none →
      handleMessagePart001 s c (InMsg.chat (some t)) now =
        .ok (safeSend s c (.errorMsg "no opponent to forward chat to"))) ∧
     (∀ p, playerOf s c = some p → p.opponent = none →
      handleMessagePart001 s c (InMsg.chat (some t)) now =
        .ok (safeSend s c (.errorMsg "no opponent to forward chat to"))) ∧
     (∀ p oc, playerOf s c = some p → p.opponent = some oc → connIsOpen s oc = false →
      handleMessagePart001 s c (InMsg.chat (some t)) now =
        .ok (safeSend s c (.errorMsg "no opponent to forward chat to")))) ∧
    (∀ kind sdp p oc, playerOf s c = some p → p.opponent = some oc →
      connIsOpen s oc = false →
      handleMessageServerJs s c (InMsg.signal kind sdp) now =
        .ok (safeSend s c (.errorMsg "no opponent to forward to"))) ∧
    ((playerOf s c = none →
      handleMessagePart002 s c (InMsg.chat (some t)) now =
        .ok (safeSend s c (.errorMsg "No opponent to forward chat"))) ∧
     (∀ p, playerOf s c = some p → p.opponent = none →
      handleMessagePart002 s c (InMsg.chat (some t)) now =
        .ok (safeSend s c (.errorMsg "No opponent to forward chat"))) ∧
     (∀ p oc, playerOf s c = some p → p.opponent = some oc → connIsOpen s oc = false →
      t ≠ "" →
      handleMessagePart002 s c (InMsg.chat (some t)) now = .ok s)) := by
  refine ⟨⟨?_, ?_, ?_⟩, ?_, ?_, ?_, ?_⟩
  · intro hp
    simp only [handleMessagePart001, hp]
  · intro p hp hop
    simp only [handleMessagePart001, hp, hop]
  · intro p oc hp hop hoc
    simp only [handleMessagePart001, hp, hop]
    rw [if_neg (by rw [hoc]; simp)]
  · intro kind sdp p oc hp hop hoc
    simp only [handleMessageServerJs, hp, hop]
    rw [if_neg (by rw [hoc]; simp)]
  · intro hp
    simp only [handleMessagePart002, hp]
  · intro p hp hop
    simp only [handleMessagePart002, hp, hop]
  · intro p oc hp hop hoc ht
    simp only [handleMessagePart002, hp, hop]
    rw [if_neg (by simp [ht])]
    rw [show safeSend s oc (OutMsg.chatMsg p.player_id ((some t).getD "")) = s from by
      unfold safeSend; rw [if_neg (by rw [hoc]; simp)]]

theorem spec_C4_relay_errors_witness :
    playerOf (runD Variant.part002 c4evs) 1 = some ⟨"A", JNum.fin 1000, 100, some 2⟩ ∧
    connIsOpen (runD Variant.part002 c4evs) 2 = false ∧
    handleMessagePart002 (runD Variant.part002 c4evs) 1 (InMsg.chat (some "hello")) 7 =
      .ok (runD Variant.part002 c4evs) :=
  ⟨by rfl, by rfl,
   (spec_C4_relay_errors (runD Variant.part002 c4evs) 1 "hello" 7).2.2.2.2
     ⟨"A", JNum.fin 1000, 100, some 2⟩ 2 (by rfl) rfl (by rfl) (by decide)⟩

/-! ## C3: opponent symmetry at every reachable state -/

/-- Claim C3.  At every reachable state of every variant, the opponent
relation is symmetric among the Players that still exist (their `"close"`
event has not fired - in particular all players on open connections):
whenever such a player `a` references `b` as its opponent, `b`'s
connection exists, still carries its player object, and that player's
opponent reference points back at `a`.  This holds after any sequence of
connects, joins, pairing passes, relays, pongs, heartbeat sweeps, socket
drops and disconnect teardowns - in particular immediately after a
disconnect (where the torn-down side's lingering record is exactly the
one whose close has fired). -/
theorem spec_C3_opponent_symmetry {v : Variant} {s : ServerState}
    (hr : Reachable v s) (a b : ConnId) (ca : Conn) (pa : PlayerData)
    (hga : getConn s.conns a = some ca) (halive : ca.closeHandled = false)
    (hpla : ca.player = some pa) (hop : pa.opponent = some b) :
    ∃ cb pb, getConn s.conns b = some cb ∧ cb.player = some pb ∧ pb.opponent = some a := by
  have hinv := inv_reachable hr
  obtain ⟨_, ⟨cb, pb, hgb, hplb⟩, _⟩ := hinv.oppTarget a ca pa b hga hpla hop
  rcases hinv.oppMut a ca pa b cb pb hga hpla hop hgb hplb with hmut | ⟨_, hcl⟩
  · exact ⟨cb, pb, hgb, hplb, hmut⟩
  · rw [hcl] at halive
    cases halive

theorem spec_C3_opponent_symmetry_witness :
    ∃ cb pb, getConn (runD Variant.serverJs pairedEvs).conns 2 = some cb ∧
      cb.player = some pb ∧ pb.opponent = some 1 :=
  spec_C3_opponent_symmetry
    (reachable_of_run
      (show runEvents Variant.serverJs pairedEvs = some (runD Variant.serverJs pairedEvs)
        from rfl)) 1 2
    ⟨true, true, false, some ⟨"P1", JNum.fin 1000, 100, some 2⟩⟩
    ⟨"P1", JNum.fin 1000, 100, some 2⟩ (by rfl) rfl rfl rfl

end MM

